import Mathlib

/-!
Verification development for the lumen version-control abstraction layer
(git backend).  The repository operations in `src/vcs/git.rs` are shallowly
embedded: pure Rust helper functions become Lean functions on `Int`/`Nat`/
`String`, the libgit2 boundary (repository objects, tree diffs, revision
walks) is modelled by explicit data (`Repo`, `CommitData`, `DiffDelta`), and
fallible operations return `Except VcsError`.  Rust `i64` division and
remainder are truncating, so they are embedded as `Int.tdiv` / `Int.tmod`.
-/

/-- Whitespace test used by trimming (model of Rust str::trim). -/
def isWSb (c : Char) : Bool := c.isWhitespace

/-- Drop leading whitespace. -/
def ltrim (cs : List Char) : List Char := cs.dropWhile isWSb

/-- Drop trailing whitespace. -/
def rtrim (cs : List Char) : List Char := (cs.reverse.dropWhile isWSb).reverse

/-- Model of Rust str::trim on character lists. -/
def trimList (cs : List Char) : List Char := rtrim (ltrim cs)

/-- Model of Rust str::trim on strings. -/
def trimStr (s : String) : String := String.mk (trimList s.data)

/-- Does the string start with a hyphen (model of starts_with applied to a dash)? -/
def startsDash (s : String) : Bool := s.data.head? == some '-'

/-- The two-dot range separator. -/
def dotdot : String := ".."

/-- The three-dot range separator. -/
def dotdotdot : String := "..."

/-- Model of Rust str::contains for a substring pattern. -/
def containsSub (s pat : String) : Bool := decide (pat.data <:+: s.data)

/-- Fuel-bounded body of the split model; the fuel is always at least the
list length, so the zero-fuel arm is unreachable. -/
def splitOnAux (s0 : Char) (sr : List Char) : Nat → List Char → List (List Char)
  | 0, _ => [[]]
  | fuel + 1, cs =>
    if (s0 :: sr) <+: cs then
      [] :: splitOnAux s0 sr fuel (cs.drop (sr.length + 1))
    else
      match cs with
      | [] => [[]]
      | c :: rest =>
        match splitOnAux s0 sr fuel rest with
        | [] => [[c]]
        | p :: ps => (c :: p) :: ps

/-- Model of Rust str::split with a non-empty separator, on character lists.
The separator is given as head character plus rest so it is never empty. -/
def splitOnNE (s0 : Char) (sr : List Char) (cs : List Char) : List (List Char) :=
  splitOnAux s0 sr cs.length cs

/-- Model of Rust str::split returning strings. -/
def splitOnStr (s : String) (s0 : Char) (sr : List Char) : List String :=
  (splitOnNE s0 sr s.data).map String.mk

/-- Files to exclude from diff output (EXCLUDED_FILES in the source). -/
def EXCLUDED_FILES : List String :=
  ["package-lock.json", "yarn.lock", "pnpm-lock.yaml", "Cargo.lock"]

/-- Path patterns to exclude from diff output (EXCLUDED_PATTERNS in the source). -/
def EXCLUDED_PATTERNS : List String := ["node_modules/"]

/-- The basename of a path: everything after the last slash
(model of path.rsplit on a slash, first item). -/
def basenameOf (path : String) : String :=
  String.mk ((path.data.reverse.takeWhile (fun c => !(c == '/'))).reverse)

/-- Check whether a path should be excluded from diff output
(should_exclude_path in the source). -/
def should_exclude_path (path : String) : Bool :=
  EXCLUDED_FILES.contains (basenameOf path) ||
    EXCLUDED_PATTERNS.any (fun pat => decide (pat.data <:+: path.data))

/-- Is a byte a UTF-8 continuation byte? -/
def isCont (b : Nat) : Bool := 0x80 ≤ b && b ≤ 0xBF

/-- Strict UTF-8 decoder, the model of std str::from_utf8: rejects
continuation errors, overlong encodings, surrogates and out-of-range
code points. -/
def utf8DecodeAux : Nat → List Nat → Option (List Char)
  | 0, [] => some []
  | 0, _ :: _ => none
  | _ + 1, [] => some []
  | fuel + 1, b1 :: t1 =>
    if b1 < 0x80 then
      (utf8DecodeAux fuel t1).map (fun cs => Char.ofNat b1 :: cs)
    else if b1 < 0xC2 then none
    else if b1 < 0xE0 then
      match t1 with
      | b2 :: t2 =>
        if isCont b2 then
          (utf8DecodeAux fuel t2).map (fun cs => Char.ofNat ((b1 - 0xC0) * 64 + (b2 - 0x80)) :: cs)
        else none
      | [] => none
    else if b1 < 0xF0 then
      match t1 with
      | b2 :: b3 :: t3 =>
        if isCont b2 && isCont b3 then
          let cp := (b1 - 0xE0) * 4096 + (b2 - 0x80) * 64 + (b3 - 0x80)
          if 0x800 ≤ cp && !(0xD800 ≤ cp && cp ≤ 0xDFFF) then
            (utf8DecodeAux fuel t3).map (fun cs => Char.ofNat cp :: cs)
          else none
        else none
      | _ => none
    else if b1 < 0xF5 then
      match t1 with
      | b2 :: b3 :: b4 :: t4 =>
        if isCont b2 && isCont b3 && isCont b4 then
          let cp := (b1 - 0xF0) * 262144 + (b2 - 0x80) * 4096 + (b3 - 0x80) * 64 + (b4 - 0x80)
          if 0x10000 ≤ cp && cp ≤ 0x10FFFF then
            (utf8DecodeAux fuel t4).map (fun cs => Char.ofNat cp :: cs)
          else none
        else none
      | _ => none
    else none

/-- Strict UTF-8 decoder entry point. -/
def utf8DecodeChars (bs : List Nat) : Option (List Char) :=
  utf8DecodeAux bs.length bs

/-- Strict UTF-8 decoding to a string. -/
def utf8DecodeStr (bs : List Nat) : Option String :=
  (utf8DecodeChars bs).map String.mk

/-- UTF-8 encoding of one character. -/
def utf8EncodeChar (c : Char) : List Nat :=
  let n := c.toNat
  if n < 0x80 then [n]
  else if n < 0x800 then [0xC0 + n / 64, 0x80 + n % 64]
  else if n < 0x10000 then [0xE0 + n / 4096, 0x80 + n / 64 % 64, 0x80 + n % 64]
  else [0xF0 + n / 262144, 0x80 + n / 4096 % 64, 0x80 + n / 64 % 64, 0x80 + n % 64]

/-- UTF-8 bytes of a string. -/
def strBytes (s : String) : List Nat := (s.data.map utf8EncodeChar).flatten

/-- Decimal digit character. -/
def digitChar (d : Nat) : Char := Char.ofNat (48 + d)

/-- Fuel-bounded decimal digit expansion, most significant first; the fuel
is always at least the number, so the zero-fuel arm is unreachable. -/
def natDigitsAux : Nat → Nat → List Char
  | 0, _ => []
  | _ + 1, 0 => []
  | fuel + 1, n => natDigitsAux fuel (n / 10) ++ [digitChar (n % 10)]

/-- Decimal digit characters of a natural number, most significant first. -/
def natDigits (n : Nat) : List Char :=
  if n = 0 then ['0'] else natDigitsAux n n

/-- Left pad with zeros to a minimum width (model of a Rust zero-padded
format of a non-negative number). -/
def zeroPadNat (w : Nat) (n : Nat) : List Char :=
  List.replicate (w - (natDigits n).length) '0' ++ natDigits n

/-- Model of a Rust zero-padded integer format (the sign counts toward the
width, as Rust does). -/
def fmtI (w : Nat) (n : Int) : List Char :=
  if n < 0 then '-' :: zeroPadNat (w - 1) n.natAbs else zeroPadNat w n.toNat

/-- Model of a Rust unpadded integer display. -/
def intDisplay (n : Int) : String :=
  if n < 0 then String.mk ('-' :: natDigits n.natAbs) else String.mk (natDigits n.toNat)

/-- Format a duration in seconds as relative time (format_relative_time in
the source; Rust i64 division is truncating, hence Int.tdiv). -/
def format_relative_time (secs_ago : Int) : String :=
  if secs_ago < 0 then "in the future"
  else if secs_ago < 60 then intDisplay secs_ago ++ " seconds ago"
  else
    let mins := Int.tdiv secs_ago 60
    if mins < 60 then
      intDisplay mins ++ " " ++ (if mins = 1 then "minute" else "minutes") ++ " ago"
    else
      let hours := Int.tdiv mins 60
      if hours < 24 then
        intDisplay hours ++ " " ++ (if hours = 1 then "hour" else "hours") ++ " ago"
      else
        let days := Int.tdiv hours 24
        if days < 7 then
          intDisplay days ++ " " ++ (if days = 1 then "day" else "days") ++ " ago"
        else
          let weeks := Int.tdiv days 7
          if weeks < 4 then
            intDisplay weeks ++ " " ++ (if weeks = 1 then "week" else "weeks") ++ " ago"
          else
            let months := Int.tdiv days 30
            if months < 12 then
              intDisplay months ++ " " ++ (if months = 1 then "month" else "months") ++ " ago"
            else
              let years := Int.tdiv days 365
              intDisplay years ++ " " ++ (if years = 1 then "year" else "years") ++ " ago"

/-- Wrapping cast to i32 (Rust as-cast semantics). -/
def wrap32 (n : Int) : Int := Int.emod (n + 2147483648) 4294967296 - 2147483648

/-- Convert days since the Unix epoch to year, month, day
(days_to_ymd in the source; Hinnant civil-from-days algorithm).
The u32 intermediates are Nat here: the subtractions never underflow for
day counts produced by the algorithm, and the final i32 cast wraps. -/
def days_to_ymd (days : Int) : Int × Nat × Nat :=
  let z := days + 719468
  let era := Int.tdiv (if 0 ≤ z then z else z - 146096) 146097
  let doe := (z - era * 146097).toNat
  let yoe := (doe - doe / 1460 + doe / 36524 - doe / 146096) / 365
  let y : Int := (yoe : Int) + era * 400
  let doy := doe - (365 * yoe + yoe / 4 - yoe / 100)
  let mp := (5 * doy + 2) / 153
  let d := doy - (153 * mp + 2) / 5 + 1
  let m := if mp < 10 then mp + 3 else mp - 9
  (wrap32 (if m ≤ 2 then y + 1 else y), m, d)

/-- Format seconds since epoch with a timezone offset in minutes as
YYYY-MM-DD HH:MM:SS (format_git_time in the source). -/
def format_git_time (secs : Int) (offset_mins : Int) : String :=
  let local_secs := secs + offset_mins * 60
  let days := Int.tdiv local_secs 86400
  let time_of_day := Int.tmod (Int.tmod local_secs 86400 + 86400) 86400
  let hours := Int.tdiv time_of_day 3600
  let minutes := Int.tdiv (Int.tmod time_of_day 3600) 60
  let seconds := Int.tmod time_of_day 60
  let ymd := days_to_ymd days
  String.mk (fmtI 4 ymd.1 ++ '-' :: zeroPadNat 2 ymd.2.1 ++ '-' :: zeroPadNat 2 ymd.2.2 ++
    ' ' :: fmtI 2 hours ++ ':' :: fmtI 2 minutes ++ ':' :: fmtI 2 seconds)

/-- Error taxonomy of the VCS layer (VcsError in the source). -/
inductive VcsError where
  | NotARepository : VcsError
  | InvalidRef : String → VcsError
  | FileNotFound : String → VcsError
  | Other : String → VcsError
deriving DecidableEq, Repr

/-- Decidable equality for Except results, used to evaluate the model on
concrete inputs. -/
instance {e a : Type} [DecidableEq e] [DecidableEq a] : DecidableEq (Except e a) := fun x y =>
  match x, y with
  | Except.ok v, Except.ok w =>
    if h : v = w then isTrue (by rw [h]) else isFalse (fun hc => h (Except.ok.inj hc))
  | Except.error v, Except.error w =>
    if h : v = w then isTrue (by rw [h]) else isFalse (fun hc => h (Except.error.inj hc))
  | Except.ok _, Except.error _ => isFalse (fun hc => Except.noConfusion hc)
  | Except.error _, Except.ok _ => isFalse (fun hc => Except.noConfusion hc)

/-- A tree: association list from path to file content. -/
abbrev GitTree := List (String × String)

/-- One commit object of the modelled repository.  tree = none models an
unreadable tree object (lower-level read failure). -/
structure CommitData where
  id : String
  parents : List String
  message : String
  authorName : String
  authorEmail : String
  time : Int
  offset : Int
  tree : Option GitTree
deriving DecidableEq, Repr

/-- The modelled repository state: commit store, named references, the
staging index and the working tree. -/
structure Repo where
  commits : List CommitData
  refs : List (String × String)
  index : GitTree
  workdir : GitTree
deriving DecidableEq, Repr

/-- Presentation data of one commit (CommitInfo in the source). -/
structure CommitInfo where
  commit_id : String
  change_id : Option String
  message : String
  diff : String
  author : String
  date : String
deriving DecidableEq, Repr

/-- Per-commit record for range enumeration (StackedCommitInfo in the source). -/
structure StackedCommitInfo where
  commit_id : String
  short_id : String
  change_id : Option String
  summary : String
deriving DecidableEq, Repr

/-- Find a commit by id in the store (model of find_commit). -/
def lookupCommit (repo : Repo) (cid : String) : Option CommitData :=
  repo.commits.find? (fun c => c.id == cid)

/-- Resolve a plain revision string: a named reference or a commit id
(base case of the revparse model). -/
def revparseBase (repo : Repo) (s : String) : Option CommitData :=
  match repo.refs.lookup s with
  | some cid => lookupCommit repo cid
  | none => lookupCommit repo s

/-- Model of revparse_single + peel_to_commit over the reversed character
list: a trailing caret selects the first parent of the rest. -/
def revparseRev (repo : Repo) : List Char → Option CommitData
  | [] => revparseBase repo (String.mk [])
  | c :: rest =>
    if c = '^' then
      match revparseRev repo rest with
      | none => none
      | some cd =>
        match cd.parents.head? with
        | none => none
        | some pid => lookupCommit repo pid
    else revparseBase repo (String.mk ((c :: rest).reverse))

/-- Model of revparse_single + peel_to_commit. -/
def revparse (repo : Repo) (s : String) : Option CommitData :=
  revparseRev repo s.data.reverse

/-- Error-message constants (the model keeps the fixed text of the Rust
format strings, without the appended lower-level cause). -/
def msgRefDash : String := "references cannot start with -: "

/-- Message for an unreadable commit tree. -/
def msgCommitTree : String := "failed to get commit tree"

/-- Message for an unreadable from-side tree. -/
def msgFromTree : String := "failed to get from tree"

/-- Message for an unreadable to-side tree. -/
def msgToTree : String := "failed to get to tree"

/-- Message for a missing merge base. -/
def msgMergeBase : String := "failed to find merge base"

/-- Message for a missing merge-base commit object. -/
def msgMergeBaseCommit : String := "failed to find merge base commit"

/-- Message for an unreadable merge-base tree. -/
def msgMergeBaseTree : String := "failed to get merge base tree"

/-- Message for a commit object missing during the range walk. -/
def msgFindCommit : String := "failed to find commit"

/-- Validate that a reference does not look like a command flag
(validate_ref_format in the source). -/
def validate_ref_format (reference : String) : Except VcsError Unit :=
  if startsDash (trimStr reference) then
    Except.error (VcsError.InvalidRef (msgRefDash ++ reference))
  else Except.ok ()

/-- A diff line produced by the diff machinery: origin tag and raw bytes. -/
structure DiffLine where
  origin : Char
  content : List Nat
deriving DecidableEq, Repr

/-- A diff delta: the per-file change record with old/new side paths (none
models an absent or non-UTF-8 path) and its lines. -/
structure DiffDelta where
  oldPath : Option String
  newPath : Option String
  lines : List DiffLine
deriving DecidableEq, Repr

/-- All paths of a tree. -/
def treePaths (t : GitTree) : List String := t.map (fun e => e.1)

/-- Content of a path in a tree. -/
def treeLookup (t : GitTree) (p : String) : Option String := t.lookup p

/-- Lines of one delta in the modelled diff: a file header plus whole-file
old/new content lines (a simple model of the external hunk generation). -/
def mkLines (p : String) (o n : Option String) : List DiffLine :=
  { origin := 'F', content := strBytes ("diff --git a/" ++ p ++ " b/" ++ p ++ "\n") } ::
    ((match o with
      | some s => [({ origin := '-', content := strBytes (s ++ "\n") } : DiffLine)]
      | none => []) ++
     (match n with
      | some s => [({ origin := '+', content := strBytes (s ++ "\n") } : DiffLine)]
      | none => []))

/-- Model of diff_tree_to_tree: one delta per path whose content differs. -/
def diffTreeToTree (old new : GitTree) : List DiffDelta :=
  ((treePaths old ++ treePaths new).dedup).filterMap (fun p =>
    let o := treeLookup old p
    let n := treeLookup new p
    if o = n then none
    else some { oldPath := some p, newPath := some p, lines := mkLines p o n })

/-- Line prefix selection of generate_commit_diff: content lines keep their
origin, file/hunk/binary marker lines and anything else get no prefix. -/
def line_prefix_commit (o : Char) : Option Char :=
  if o = '+' ∨ o = '-' ∨ o = ' ' then some o
  else if o = 'F' ∨ o = 'H' ∨ o = 'B' then none
  else none

/-- Line prefix selection of get_working_tree_diff and get_range_diff
(same behaviour, wildcard arm in the source). -/
def line_prefix_simple (o : Char) : Option Char :=
  if o = '+' ∨ o = '-' ∨ o = ' ' then some o else none

/-- Is a delta excluded: the new-side path is checked first, then the
old-side path, exactly as in the three print callbacks. -/
def delta_excluded (d : DiffDelta) : Bool :=
  (match d.newPath with
   | some p => should_exclude_path p
   | none => false) ||
  (match d.oldPath with
   | some p => should_exclude_path p
   | none => false)

/-- Text appended for one diff line by a print callback: nothing when the
delta is excluded; otherwise the prefix (when any) followed by the content
when it is valid UTF-8 and nothing otherwise. -/
def print_line (pf : Char → Option Char) (d : DiffDelta) (l : DiffLine) : String :=
  if delta_excluded d then
    String.mk []
  else
    (match pf l.origin with
     | some c => String.mk [c]
     | none => String.mk []) ++
    (match utf8DecodeStr l.content with
     | some s => s
     | none => String.mk [])

/-- Concatenation of a list of strings in order. -/
def concatStrs : List String → String
  | [] => ""
  | s :: rest => s ++ concatStrs rest

/-- The full patch text: concatenation of all retained lines in emission
order (the diff.print fold of the source). -/
def renderPatch (pf : Char → Option Char) (deltas : List DiffDelta) : String :=
  concatStrs (deltas.map (fun d => concatStrs (d.lines.map (print_line pf d))))

/-- Strip trailing newline characters (trim_end_matches in the source). -/
def dropTrailingNewlines (s : String) : String :=
  String.mk ((s.data.reverse.dropWhile (fun c => c == '\n')).reverse)

/-- Model of the external commit summary: the first line of the message. -/
def summaryOf (msg : String) : String :=
  String.mk (msg.data.takeWhile (fun c => !(c == '\n')))

/-- The well-known id of the empty tree. -/
def emptyTreeSha : String := "4b825dc642cb6eb9a060e54bf8d69288fbee4904"

/-- Tree of the first parent of a commit (the parent_tree binding of
generate_commit_diff in the source).  Parent lookup failures silently
fall back to none, as the ok()/and_then chain does. -/
def commit_parent_tree (repo : Repo) (commit : CommitData) : Option GitTree :=
  if commit.parents.length > 0 then
    (commit.parents.head?.bind (lookupCommit repo)).bind (fun p => p.tree)
  else none

/-- Generate the unified diff of a commit against its first parent, or
against the empty tree for a root commit (generate_commit_diff in the
source). -/
def generate_commit_diff (repo : Repo) (commit : CommitData) : Except VcsError String :=
  match commit.tree with
  | none => Except.error (VcsError.Other msgCommitTree)
  | some tree =>
    Except.ok (renderPatch line_prefix_commit
      (diffTreeToTree ((commit_parent_tree repo commit).getD []) tree))

/-- get_commit of the backend contract. -/
def get_commit (repo : Repo) (reference0 : String) : Except VcsError CommitInfo :=
  let reference := trimStr reference0
  match validate_ref_format reference with
  | Except.error e => Except.error e
  | Except.ok _ =>
    match revparse repo reference with
    | none => Except.error (VcsError.InvalidRef reference)
    | some commit =>
      match generate_commit_diff repo commit with
      | Except.error e => Except.error e
      | Except.ok diff =>
        Except.ok
          { commit_id := commit.id
            change_id := none
            message := dropTrailingNewlines commit.message
            diff := diff
            author := commit.authorName ++ " <" ++ commit.authorEmail ++ ">"
            date := format_git_time commit.time commit.offset }

/-- Delta list of get_working_tree_diff: staged compares the HEAD tree to
the index, unstaged compares the index to the working tree. -/
def working_tree_deltas (repo : Repo) (staged : Bool) : List DiffDelta :=
  if staged then
    let head : Option GitTree :=
      ((repo.refs.lookup "HEAD").bind (lookupCommit repo)).bind (fun c => c.tree)
    diffTreeToTree (head.getD []) repo.index
  else diffTreeToTree repo.index repo.workdir

/-- get_working_tree_diff of the backend contract. -/
def get_working_tree_diff (repo : Repo) (staged : Bool) : Except VcsError String :=
  Except.ok (renderPatch line_prefix_simple (working_tree_deltas repo staged))

/-- Commit ids reachable from a starting id, the start first, depth first
along parent lists (fuel-bounded model of the external ancestry walk). -/
def ancestorsAux (repo : Repo) : Nat → List String → List String → List String
  | 0, _, visited => visited.reverse
  | _ + 1, [], visited => visited.reverse
  | fuel + 1, cid :: rest, visited =>
    if visited.contains cid then ancestorsAux repo fuel rest visited
    else
      match lookupCommit repo cid with
      | none => ancestorsAux repo fuel rest (cid :: visited)
      | some c => ancestorsAux repo fuel (c.parents ++ rest) (cid :: visited)

/-- All ancestors of a commit id, the id itself first. -/
def ancestors (repo : Repo) (cid : String) : List String :=
  ancestorsAux repo (repo.commits.length + 1) [cid] []

/-- Model of merge_base: the first ancestor of the first commit that is
also an ancestor of the second. -/
def merge_base (repo : Repo) (a b : String) : Option String :=
  (ancestors repo a).find? (fun x => (ancestors repo b).contains x)

/-- Model of the revision walk of get_commits_in_range: commits reachable
from to but not from from, newest first. -/
def revwalkList (repo : Repo) (toId fromId : String) : List String :=
  let hidden := ancestors repo fromId
  (ancestors repo toId).filter (fun i => !(hidden.contains i))

/-- Base tree of get_range_diff (the base_tree binding of the source):
the merge-base tree in three-dot mode, the from-commit tree otherwise. -/
def range_base_tree (repo : Repo) (from_commit to_commit : CommitData)
    (three_dot : Bool) : Except VcsError GitTree :=
  if three_dot then
    match merge_base repo from_commit.id to_commit.id with
    | none => Except.error (VcsError.Other msgMergeBase)
    | some mb =>
      match lookupCommit repo mb with
      | none => Except.error (VcsError.Other msgMergeBaseCommit)
      | some mbc =>
        match mbc.tree with
        | none => Except.error (VcsError.Other msgMergeBaseTree)
        | some t => Except.ok t
  else
    match from_commit.tree with
    | none => Except.error (VcsError.Other msgFromTree)
    | some t => Except.ok t

/-- get_range_diff of the backend contract (the source does not trim these
references before validating or resolving them). -/
def get_range_diff (repo : Repo) (fromR toR : String) (three_dot : Bool) :
    Except VcsError String :=
  match validate_ref_format fromR with
  | Except.error e => Except.error e
  | Except.ok _ =>
  match validate_ref_format toR with
  | Except.error e => Except.error e
  | Except.ok _ =>
  match revparse repo fromR with
  | none => Except.error (VcsError.InvalidRef fromR)
  | some from_commit =>
  match revparse repo toR with
  | none => Except.error (VcsError.InvalidRef toR)
  | some to_commit =>
  match range_base_tree repo from_commit to_commit three_dot with
  | Except.error e => Except.error e
  | Except.ok bt =>
  match to_commit.tree with
  | none => Except.error (VcsError.Other msgToTree)
  | some tt =>
    Except.ok (renderPatch line_prefix_simple (diffTreeToTree bt tt))

/-- New-side paths of a delta list (the deltas()/new_file() projection). -/
def changedPaths (deltas : List DiffDelta) : List String :=
  deltas.filterMap (fun d => d.newPath)

/-- Single-commit arm of get_changed_files: files changed between the
commit and its first parent, or the empty tree for a root commit. -/
def get_changed_files_single (repo : Repo) (reference : String) :
    Except VcsError (List String) :=
  match validate_ref_format reference with
  | Except.error e => Except.error e
  | Except.ok _ =>
  match revparse repo reference with
  | none => Except.error (VcsError.InvalidRef reference)
  | some commit =>
  match commit.tree with
  | none => Except.error (VcsError.Other msgCommitTree)
  | some tree =>
    let parent_tree : Option GitTree :=
      if commit.parents.length > 0 then
        (commit.parents.head?.bind (lookupCommit repo)).bind (fun p => p.tree)
      else none
    Except.ok (changedPaths (diffTreeToTree (parent_tree.getD []) tree))

/-- get_changed_files of the backend contract: a two-dot or three-dot range
diffs the two endpoints, anything else is treated as a single commit. -/
def get_changed_files (repo : Repo) (reference0 : String) :
    Except VcsError (List String) :=
  let reference := trimStr reference0
  if containsSub reference dotdot then
    let parts : List String :=
      if containsSub reference dotdotdot then splitOnStr reference '.' ['.', '.']
      else splitOnStr reference '.' ['.']
    match parts with
    | [p0, p1] =>
      (match validate_ref_format p0 with
       | Except.error e => Except.error e
       | Except.ok _ =>
       match validate_ref_format p1 with
       | Except.error e => Except.error e
       | Except.ok _ =>
       match revparse repo p0 with
       | none => Except.error (VcsError.InvalidRef p0)
       | some fc =>
       match fc.tree with
       | none => Except.error (VcsError.Other msgFromTree)
       | some ft =>
       match revparse repo p1 with
       | none => Except.error (VcsError.InvalidRef p1)
       | some tc =>
       match tc.tree with
       | none => Except.error (VcsError.Other msgToTree)
       | some tt => Except.ok (changedPaths (diffTreeToTree ft tt)))
    | _ => get_changed_files_single repo reference
  else get_changed_files_single repo reference

/-- get_file_content_at_ref of the backend contract. -/
def get_file_content_at_ref (repo : Repo) (reference0 : String) (path : String) :
    Except VcsError String :=
  let reference := trimStr reference0
  match validate_ref_format reference with
  | Except.error e => Except.error e
  | Except.ok _ =>
  match revparse repo reference with
  | none => Except.error (VcsError.InvalidRef reference)
  | some commit =>
  match commit.tree with
  | none => Except.error (VcsError.Other msgCommitTree)
  | some tree =>
    match treeLookup tree path with
    | none => Except.error (VcsError.FileNotFound path)
    | some content => Except.ok content

/-- resolve_ref of the backend contract. -/
def resolve_ref (repo : Repo) (reference0 : String) : Except VcsError String :=
  let reference := trimStr reference0
  match validate_ref_format reference with
  | Except.error e => Except.error e
  | Except.ok _ =>
  match revparse repo reference with
  | none => Except.error (VcsError.InvalidRef reference)
  | some commit => Except.ok commit.id

/-- get_merge_base of the backend contract. -/
def get_merge_base (repo : Repo) (ref10 ref20 : String) : Except VcsError String :=
  let ref1 := trimStr ref10
  let ref2 := trimStr ref20
  match validate_ref_format ref1 with
  | Except.error e => Except.error e
  | Except.ok _ =>
  match validate_ref_format ref2 with
  | Except.error e => Except.error e
  | Except.ok _ =>
  match revparse repo ref1 with
  | none => Except.error (VcsError.InvalidRef ref1)
  | some c1 =>
  match revparse repo ref2 with
  | none => Except.error (VcsError.InvalidRef ref2)
  | some c2 =>
    match merge_base repo c1.id c2.id with
    | none => Except.error (VcsError.Other msgMergeBase)
    | some mb => Except.ok mb

/-- get_range_changed_files of the backend contract. -/
def get_range_changed_files (repo : Repo) (from0 to0 : String) :
    Except VcsError (List String) :=
  let fromR := trimStr from0
  let toR := trimStr to0
  match validate_ref_format fromR with
  | Except.error e => Except.error e
  | Except.ok _ =>
  match validate_ref_format toR with
  | Except.error e => Except.error e
  | Except.ok _ =>
  match revparse repo fromR with
  | none => Except.error (VcsError.InvalidRef fromR)
  | some fc =>
  match fc.tree with
  | none => Except.error (VcsError.Other msgFromTree)
  | some ft =>
  match revparse repo toR with
  | none => Except.error (VcsError.InvalidRef toR)
  | some tc =>
  match tc.tree with
  | none => Except.error (VcsError.Other msgToTree)
  | some tt => Except.ok (changedPaths (diffTreeToTree ft tt))

/-- get_parent_ref_or_empty of the backend contract. -/
def get_parent_ref_or_empty (repo : Repo) (reference0 : String) :
    Except VcsError String :=
  let reference := trimStr reference0
  match validate_ref_format reference with
  | Except.error e => Except.error e
  | Except.ok _ =>
  match revparse repo reference with
  | none => Except.error (VcsError.InvalidRef reference)
  | some commit =>
    if commit.parents.length > 0 then Except.ok (reference ++ "^")
    else Except.ok emptyTreeSha

/-- The StackedCommitInfo built for one visited commit. -/
def stackedOf (c : CommitData) : StackedCommitInfo :=
  { commit_id := c.id
    short_id := String.mk (c.id.data.take 7)
    change_id := none
    summary := summaryOf c.message }

/-- Inclusion test of the range walk: a commit is kept when its changed
file computation succeeds with a non-empty list; a failure counts as
empty (the unwrap_or(false) of the source). -/
def keepInRange (repo : Repo) (c : CommitData) : Bool :=
  match get_changed_files repo c.id with
  | Except.ok fs => !fs.isEmpty
  | Except.error _ => false

/-- The walk body of get_commits_in_range: newest-first collection with
error propagation for missing commit objects. -/
def collectStacked (repo : Repo) : List String → Except VcsError (List StackedCommitInfo)
  | [] => Except.ok []
  | oid :: rest =>
    match lookupCommit repo oid with
    | none => Except.error (VcsError.Other msgFindCommit)
    | some c =>
      match collectStacked repo rest with
      | Except.error e => Except.error e
      | Except.ok tail =>
        if keepInRange repo c then Except.ok (stackedOf c :: tail)
        else Except.ok tail

/-- get_commits_in_range of the backend contract: walk from to back to
from (exclusive), drop commits with an empty changed-file set, return
oldest first. -/
def get_commits_in_range (repo : Repo) (from0 to0 : String) :
    Except VcsError (List StackedCommitInfo) :=
  let fromR := trimStr from0
  let toR := trimStr to0
  match validate_ref_format fromR with
  | Except.error e => Except.error e
  | Except.ok _ =>
  match validate_ref_format toR with
  | Except.error e => Except.error e
  | Except.ok _ =>
  match revparse repo fromR with
  | none => Except.error (VcsError.InvalidRef fromR)
  | some fc =>
  match revparse repo toR with
  | none => Except.error (VcsError.InvalidRef toR)
  | some tc =>
    match collectStacked repo (revwalkList repo tc.id fc.id) with
    | Except.error e => Except.error e
    | Except.ok commits => Except.ok commits.reverse

/-! ## Basic string lemmas -/

theorem string_data_append (a b : String) : (a ++ b).data = a.data ++ b.data := rfl

theorem string_empty_append (s : String) : "" ++ s = s := by
  apply String.ext
  simp [string_data_append]

theorem string_append_empty (s : String) : s ++ "" = s := by
  apply String.ext
  show s.data ++ ([] : List Char) = s.data
  simp

theorem concatStrs_all_empty (l : List String) (h : ∀ s ∈ l, s = "") : concatStrs l = "" := by
  induction l with
  | nil => rfl
  | cons s rest ih =>
    have hs : s = "" := h s (by simp)
    rw [concatStrs, hs, string_empty_append]
    exact ih (fun x hx => h x (by simp [hx]))

/-! ## The diff renderer ignores excluded deltas entirely -/

theorem print_line_excluded (pf : Char → Option Char) (d : DiffDelta) (l : DiffLine)
    (h : delta_excluded d = true) : print_line pf d l = "" := by
  simp [print_line, h]

theorem renderPatch_filter (pf : Char → Option Char) (deltas : List DiffDelta) :
    renderPatch pf deltas =
      renderPatch pf (deltas.filter (fun d => !(delta_excluded d))) := by
  induction deltas with
  | nil => rfl
  | cons d rest ih =>
    by_cases h : delta_excluded d = true
    · have hjoin : concatStrs (d.lines.map (print_line pf d)) = "" :=
        concatStrs_all_empty _ (by
          intro s hs
          obtain ⟨l, _, hl⟩ := List.mem_map.mp hs
          rw [← hl]
          exact print_line_excluded pf d l h)
      rw [renderPatch, List.map_cons, concatStrs, hjoin, string_empty_append,
        List.filter_cons_of_neg (by simp [h])]
      exact ih
    · rw [renderPatch, List.map_cons, concatStrs,
        List.filter_cons_of_pos (by simp [h]), renderPatch, List.map_cons, concatStrs]
      exact congrArg (fun x => concatStrs (List.map (print_line pf d) d.lines) ++ x) ih

/-- C1: each of get_commit, get_working_tree_diff and get_range_diff
renders exactly the delta list it computes with every excluded delta
removed (excluded means: old-side or new-side basename in the lockfile
denylist, or the path contains the vendor-directory marker), and the
renderer itself is invariant under deleting excluded deltas, so an
excluded file is fully absent from the output. -/
theorem c1_diff_excludes_denylisted_paths :
    (∀ (pf : Char → Option Char) (deltas : List DiffDelta),
      renderPatch pf deltas =
        renderPatch pf (deltas.filter (fun d => !(delta_excluded d)))) ∧
    (∀ (repo : Repo) (r : String) (info : CommitInfo) (commit : CommitData)
      (tree : GitTree),
      revparse repo (trimStr r) = some commit →
      commit.tree = some tree →
      get_commit repo r = Except.ok info →
      info.diff = renderPatch line_prefix_commit
        ((diffTreeToTree ((commit_parent_tree repo commit).getD []) tree).filter
          (fun d => !(delta_excluded d)))) ∧
    (∀ (repo : Repo) (staged : Bool) (s : String),
      get_working_tree_diff repo staged = Except.ok s →
      s = renderPatch line_prefix_simple
        ((working_tree_deltas repo staged).filter (fun d => !(delta_excluded d)))) ∧
    (∀ (repo : Repo) (f t : String) (td : Bool) (s : String) (fc tcm : CommitData)
      (bt tt : GitTree),
      revparse repo f = some fc →
      revparse repo t = some tcm →
      range_base_tree repo fc tcm td = Except.ok bt →
      tcm.tree = some tt →
      get_range_diff repo f t td = Except.ok s →
      s = renderPatch line_prefix_simple
        ((diffTreeToTree bt tt).filter (fun d => !(delta_excluded d)))) := by
  refine ⟨renderPatch_filter, ?_, ?_, ?_⟩
  · intro repo r info commit tree hrev htree h
    unfold get_commit at h
    dsimp only at h
    rw [hrev] at h
    cases hv : validate_ref_format (trimStr r) with
    | error e =>
      rw [hv] at h
      dsimp only at h
      exact absurd h (fun hc => Except.noConfusion hc)
    | ok u =>
      rw [hv] at h
      dsimp only at h
      cases hg : generate_commit_diff repo commit with
      | error e =>
        rw [hg] at h
        dsimp only at h
        exact absurd h (fun hc => Except.noConfusion hc)
      | ok dv =>
        rw [hg] at h
        dsimp only at h
        have h1 := Except.ok.inj h
        rw [← h1]
        dsimp only
        unfold generate_commit_diff at hg
        rw [htree] at hg
        dsimp only at hg
        have h2 := Except.ok.inj hg
        rw [← h2, ← renderPatch_filter]
  · intro repo staged s h
    unfold get_working_tree_diff at h
    have h1 := Except.ok.inj h
    rw [← h1, ← renderPatch_filter]
  · intro repo f t td s fc tcm bt tt hf ht hbt htt h
    unfold get_range_diff at h
    rw [hf, ht] at h
    cases hv1 : validate_ref_format f with
    | error e =>
      rw [hv1] at h
      dsimp only at h
      exact absurd h (fun hc => Except.noConfusion hc)
    | ok u1 =>
      rw [hv1] at h
      dsimp only at h
      cases hv2 : validate_ref_format t with
      | error e =>
        rw [hv2] at h
        dsimp only at h
        exact absurd h (fun hc => Except.noConfusion hc)
      | ok u2 =>
        rw [hv2] at h
        dsimp only at h
        rw [hbt] at h
        dsimp only at h
        rw [htt] at h
        dsimp only at h
        have h1 := Except.ok.inj h
        rw [← h1, ← renderPatch_filter]

/-- A concrete root commit touching both a normal file and a denylisted
lockfile. -/
def c1Commit : CommitData :=
  { id := "aa11"
    parents := []
    message := "init"
    authorName := "T"
    authorEmail := "t@e"
    time := 0
    offset := 0
    tree := some [("f.txt", "A"), ("package-lock.json", "L")] }

/-- A concrete repository holding just c1Commit. -/
def c1Repo : Repo :=
  { commits := [c1Commit]
    refs := [("HEAD", "aa11")]
    index := []
    workdir := [] }

/-- The commit info produced for the c1Repo root commit: the lockfile is
fully absent from the diff. -/
def c1Info : CommitInfo :=
  { commit_id := "aa11"
    change_id := none
    message := "init"
    diff := "diff --git a/f.txt b/f.txt\n+A\n"
    author := "T <t@e>"
    date := "1970-01-01 00:00:00" }

theorem c1_witness :
    get_commit c1Repo "aa11" = Except.ok c1Info ∧
    (diffTreeToTree ((commit_parent_tree c1Repo c1Commit).getD [])
      [("f.txt", "A"), ("package-lock.json", "L")]).any
        (fun d => delta_excluded d) = true ∧
    c1Info.diff = renderPatch line_prefix_commit
      ((diffTreeToTree ((commit_parent_tree c1Repo c1Commit).getD [])
        [("f.txt", "A"), ("package-lock.json", "L")]).filter
          (fun d => !(delta_excluded d))) :=
  ⟨by decide, by decide,
    c1_diff_excludes_denylisted_paths.2.1 c1Repo "aa11" c1Info c1Commit
      [("f.txt", "A"), ("package-lock.json", "L")] (by decide) (by decide) (by decide)⟩

/-! ## Relative time formatting -/

theorem frt_negative (s : Int) (h : s < 0) : format_relative_time s = "in the future" := by
  unfold format_relative_time
  rw [if_pos h]

theorem frt_seconds (s : Int) (h1 : 0 ≤ s) (h2 : s < 60) :
    format_relative_time s = intDisplay s ++ " seconds ago" := by
  unfold format_relative_time
  rw [if_neg (by omega), if_pos h2]

theorem frt_minute_one (s : Int) (h1 : 60 ≤ s) (h2 : s < 120) :
    format_relative_time s = "1 minute ago" := by
  have e1 : Int.tdiv s 60 = 1 := by
    rw [Int.tdiv_eq_ediv (by omega) (by omega)]
    omega
  unfold format_relative_time
  rw [if_neg (by omega), if_neg (by omega)]
  dsimp only
  rw [e1]
  decide

theorem frt_hour_one (s : Int) (h1 : 3600 ≤ s) (h2 : s < 7200) :
    format_relative_time s = "1 hour ago" := by
  have e1 : Int.tdiv s 60 = s / 60 := Int.tdiv_eq_ediv (by omega) (by omega)
  have e2 : Int.tdiv (s / 60) 60 = 1 := by
    rw [Int.tdiv_eq_ediv (by omega) (by omega)]
    omega
  unfold format_relative_time
  rw [if_neg (by omega), if_neg (by omega)]
  dsimp only
  rw [e1, e2, if_neg (by omega)]
  decide

theorem frt_day_one (s : Int) (h1 : 86400 ≤ s) (h2 : s < 172800) :
    format_relative_time s = "1 day ago" := by
  have e1 : Int.tdiv s 60 = s / 60 := Int.tdiv_eq_ediv (by omega) (by omega)
  have e2 : Int.tdiv (s / 60) 60 = s / 60 / 60 := Int.tdiv_eq_ediv (by omega) (by omega)
  have e3 : Int.tdiv (s / 60 / 60) 24 = 1 := by
    rw [Int.tdiv_eq_ediv (by omega) (by omega)]
    omega
  unfold format_relative_time
  rw [if_neg (by omega), if_neg (by omega)]
  dsimp only
  rw [e1, if_neg (by omega), e2, if_neg (by omega), e3]
  decide

theorem frt_week_one (s : Int) (h1 : 604800 ≤ s) (h2 : s < 1209600) :
    format_relative_time s = "1 week ago" := by
  have e1 : Int.tdiv s 60 = s / 60 := Int.tdiv_eq_ediv (by omega) (by omega)
  have e2 : Int.tdiv (s / 60) 60 = s / 60 / 60 := Int.tdiv_eq_ediv (by omega) (by omega)
  have e3 : Int.tdiv (s / 60 / 60) 24 = s / 60 / 60 / 24 :=
    Int.tdiv_eq_ediv (by omega) (by omega)
  have e4 : Int.tdiv (s / 60 / 60 / 24) 7 = 1 := by
    rw [Int.tdiv_eq_ediv (by omega) (by omega)]
    omega
  unfold format_relative_time
  rw [if_neg (by omega), if_neg (by omega)]
  dsimp only
  rw [e1, if_neg (by omega), e2, if_neg (by omega), e3, if_neg (by omega), e4,
    if_pos (show (1 : Int) < 4 by decide)]
  decide

theorem frt_month_one (s : Int) (h1 : 2592000 ≤ s) (h2 : s < 5184000) :
    format_relative_time s = "1 month ago" := by
  have e1 : Int.tdiv s 60 = s / 60 := Int.tdiv_eq_ediv (by omega) (by omega)
  have e2 : Int.tdiv (s / 60) 60 = s / 60 / 60 := Int.tdiv_eq_ediv (by omega) (by omega)
  have e3 : Int.tdiv (s / 60 / 60) 24 = s / 60 / 60 / 24 :=
    Int.tdiv_eq_ediv (by omega) (by omega)
  have e4 : Int.tdiv (s / 60 / 60 / 24) 7 = s / 60 / 60 / 24 / 7 :=
    Int.tdiv_eq_ediv (by omega) (by omega)
  have e5 : Int.tdiv (s / 60 / 60 / 24) 30 = 1 := by
    rw [Int.tdiv_eq_ediv (by omega) (by omega)]
    omega
  unfold format_relative_time
  rw [if_neg (by omega), if_neg (by omega)]
  dsimp only
  rw [e1, if_neg (by omega), e2, if_neg (by omega), e3, if_neg (by omega), e4,
    if_neg (by omega), e5, if_pos (show (1 : Int) < 12 by decide)]
  decide

theorem frt_year_one (s : Int) (h1 : 31536000 ≤ s) (h2 : s < 63072000) :
    format_relative_time s = "1 year ago" := by
  have e1 : Int.tdiv s 60 = s / 60 := Int.tdiv_eq_ediv (by omega) (by omega)
  have e2 : Int.tdiv (s / 60) 60 = s / 60 / 60 := Int.tdiv_eq_ediv (by omega) (by omega)
  have e3 : Int.tdiv (s / 60 / 60) 24 = s / 60 / 60 / 24 :=
    Int.tdiv_eq_ediv (by omega) (by omega)
  have e4 : Int.tdiv (s / 60 / 60 / 24) 7 = s / 60 / 60 / 24 / 7 :=
    Int.tdiv_eq_ediv (by omega) (by omega)
  have e5 : Int.tdiv (s / 60 / 60 / 24) 30 = s / 60 / 60 / 24 / 30 :=
    Int.tdiv_eq_ediv (by omega) (by omega)
  have e6 : Int.tdiv (s / 60 / 60 / 24) 365 = 1 := by
    rw [Int.tdiv_eq_ediv (by omega) (by omega)]
    omega
  unfold format_relative_time
  rw [if_neg (by omega), if_neg (by omega)]
  dsimp only
  rw [e1, if_neg (by omega), e2, if_neg (by omega), e3, if_neg (by omega), e4,
    if_neg (by omega), e5, if_neg (by omega), e6]
  decide

/-- C4 counterexample: an elapsed value of exactly 1 second is displayed
with the plural unit label, contradicting the claim that a displayed
magnitude of exactly 1 always yields a singular label. -/
theorem c4_counterexample :
    format_relative_time 1 = "1 seconds ago" ∧
      format_relative_time 1 ≠ "1 second ago" := by
  constructor
  · decide
  · decide

/-- C4 (amended): 0 seconds yields "0 seconds ago", 90 seconds yields
"1 minute ago", 3700 seconds yields "1 hour ago", every negative elapsed
value yields "in the future", and a displayed magnitude of exactly 1 uses
a singular unit label for every unit except seconds: the seconds branch
always uses the plural label "seconds", so 1 second yields "1 seconds ago". -/
theorem c4_relative_time_amended :
    format_relative_time 0 = "0 seconds ago" ∧
    format_relative_time 90 = "1 minute ago" ∧
    format_relative_time 3700 = "1 hour ago" ∧
    (∀ s : Int, s < 0 → format_relative_time s = "in the future") ∧
    (∀ s : Int, 0 ≤ s → s < 60 →
      format_relative_time s = intDisplay s ++ " seconds ago") ∧
    (∀ s : Int, 60 ≤ s → s < 120 → format_relative_time s = "1 minute ago") ∧
    (∀ s : Int, 3600 ≤ s → s < 7200 → format_relative_time s = "1 hour ago") ∧
    (∀ s : Int, 86400 ≤ s → s < 172800 → format_relative_time s = "1 day ago") ∧
    (∀ s : Int, 604800 ≤ s → s < 1209600 → format_relative_time s = "1 week ago") ∧
    (∀ s : Int, 2592000 ≤ s → s < 5184000 → format_relative_time s = "1 month ago") ∧
    (∀ s : Int, 31536000 ≤ s → s < 63072000 → format_relative_time s = "1 year ago") :=
  ⟨by decide, by decide, by decide, frt_negative, frt_seconds, frt_minute_one,
    frt_hour_one, frt_day_one, frt_week_one, frt_month_one, frt_year_one⟩

theorem c4_witness :
    format_relative_time (-7) = "in the future" ∧ format_relative_time 61 = "1 minute ago" :=
  ⟨c4_relative_time_amended.2.2.2.1 (-7) (by decide),
    c4_relative_time_amended.2.2.2.2.2.1 61 (by decide) (by decide)⟩

/-- The text a print callback emits for just the prefix of a line. -/
def prefixText (pf : Char → Option Char) (o : Char) : String :=
  match pf o with
  | some c => String.mk [c]
  | none => ""

/-- C10: for a non-excluded delta, a diff line whose content bytes are not
valid UTF-8 contributes exactly its prefix (when any) to the output: the
content is dropped with no error and no placeholder.  This covers the line
printers of all three diff-producing operations: get_commit uses
line_prefix_commit, get_working_tree_diff and get_range_diff use
line_prefix_simple, all through print_line.  Invalid byte sequences exist,
e.g. a lone 0xFF byte. -/
theorem c10_invalid_utf8_content_dropped :
    (∀ (d : DiffDelta) (l : DiffLine), utf8DecodeStr l.content = none →
      delta_excluded d = false →
      print_line line_prefix_commit d l = prefixText line_prefix_commit l.origin ∧
      print_line line_prefix_simple d l = prefixText line_prefix_simple l.origin) ∧
    utf8DecodeStr [255] = none := by
  constructor
  · intro d l hdec hexcl
    constructor <;>
      (unfold print_line prefixText
       rw [if_neg (by simp [hexcl]), hdec]
       exact string_append_empty _)
  · decide

theorem c10_witness :
    utf8DecodeStr ([255] : List Nat) = none ∧
    print_line line_prefix_commit
      { oldPath := none, newPath := none, lines := [] }
      { origin := '+', content := [255] } = "+" := by
  refine ⟨by decide, ?_⟩
  have h := (c10_invalid_utf8_content_dropped.1
    { oldPath := none, newPath := none, lines := [] }
    { origin := '+', content := [255] } (by decide) (by decide)).1
  rw [h]
  decide

/-! ## Range diff of identical endpoints -/

theorem diffTreeToTree_self (t : GitTree) : diffTreeToTree t t = [] := by
  unfold diffTreeToTree
  apply List.filterMap_eq_nil_iff.mpr
  intro p _
  dsimp only
  rw [if_pos rfl]

theorem ancestorsAux_extends (repo : Repo) :
    ∀ (fuel : Nat) (stack visited : List String),
      ∃ rest, ancestorsAux repo fuel stack visited = visited.reverse ++ rest := by
  intro fuel
  induction fuel with
  | zero =>
    intro stack visited
    exact ⟨[], by simp [ancestorsAux]⟩
  | succ n ih =>
    intro stack visited
    match stack with
    | [] => exact ⟨[], by simp [ancestorsAux]⟩
    | cid :: rest =>
      rw [ancestorsAux]
      by_cases h : visited.contains cid
      · rw [if_pos h]
        exact ih rest visited
      · rw [if_neg h]
        cases hl : lookupCommit repo cid with
        | none =>
          obtain ⟨r, hr⟩ := ih rest (cid :: visited)
          exact ⟨cid :: r, by dsimp only; rw [hr]; simp⟩
        | some c =>
          obtain ⟨r, hr⟩ := ih (c.parents ++ rest) (cid :: visited)
          exact ⟨cid :: r, by dsimp only; rw [hr]; simp⟩

theorem ancestors_head (repo : Repo) (cid : String) :
    ∃ rest, ancestors repo cid = cid :: rest := by
  unfold ancestors
  rw [ancestorsAux]
  rw [if_neg (by simp)]
  cases hl : lookupCommit repo cid with
  | none =>
    obtain ⟨r, hr⟩ := ancestorsAux_extends repo repo.commits.length [] [cid]
    exact ⟨r, by dsimp only; rw [hr]; simp⟩
  | some c =>
    obtain ⟨r, hr⟩ := ancestorsAux_extends repo repo.commits.length (c.parents ++ []) [cid]
    exact ⟨r, by dsimp only; rw [hr]; simp⟩

theorem merge_base_self (repo : Repo) (cid : String) :
    merge_base repo cid cid = some cid := by
  obtain ⟨rest, hr⟩ := ancestors_head repo cid
  unfold merge_base
  rw [hr]
  rw [List.find?_cons_of_pos _ (by simp)]

/-- C8: for a resolvable reference X naming a commit with a readable tree,
get_range_diff(X, X, false) and get_range_diff(X, X, true) both return the
empty string: the tree is diffed against itself (directly, or through the
merge base of X with itself), yielding no deltas and no retained lines. -/
theorem c8_range_diff_identical_endpoints (repo : Repo) (X : String) (c : CommitData)
    (t : GitTree)
    (hres : revparse repo X = some c)
    (hval : startsDash (trimStr X) = false)
    (hc : lookupCommit repo c.id = some c)
    (ht : c.tree = some t) :
    get_range_diff repo X X false = Except.ok "" ∧
    get_range_diff repo X X true = Except.ok "" := by
  have hvr : validate_ref_format X = Except.ok () := by
    unfold validate_ref_format
    rw [if_neg (by simp [hval])]
  constructor
  · unfold get_range_diff
    rw [hvr, hres]
    dsimp only
    have hb : range_base_tree repo c c false = Except.ok t := by
      unfold range_base_tree
      rw [if_neg (show ¬(false = true) by decide), ht]
    rw [hb]
    dsimp only
    rw [ht]
    dsimp only
    rw [diffTreeToTree_self]
    rfl
  · unfold get_range_diff
    rw [hvr, hres]
    dsimp only
    have hb : range_base_tree repo c c true = Except.ok t := by
      unfold range_base_tree
      rw [if_pos rfl, merge_base_self]
      dsimp only
      rw [hc]
      dsimp only
      rw [ht]
    rw [hb]
    dsimp only
    rw [ht]
    dsimp only
    rw [diffTreeToTree_self]
    rfl

theorem c8_witness :
    get_range_diff c1Repo "aa11" "aa11" false = Except.ok "" ∧
    get_range_diff c1Repo "aa11" "aa11" true = Except.ok "" :=
  c8_range_diff_identical_endpoints c1Repo "aa11" c1Commit
    [("f.txt", "A"), ("package-lock.json", "L")]
    (by decide) (by decide) (by decide) (by decide)

/-! ## Trimming lemmas -/

theorem dropWhile_idem (p : Char → Bool) (l : List Char) :
    (l.dropWhile p).dropWhile p = l.dropWhile p := by
  induction l with
  | nil => rfl
  | cons c cs ih =>
    by_cases h : p c
    · simp [List.dropWhile_cons, h, ih]
    · simp [List.dropWhile_cons, h]

theorem rtrim_cons (c : Char) (p : List Char) (h : isWSb c = false) :
    rtrim (c :: p) = c :: rtrim p := by
  unfold rtrim
  rw [show (c :: p).reverse = p.reverse ++ [c] from by simp, List.dropWhile_append]
  by_cases h2 : (p.reverse.dropWhile isWSb).isEmpty
  · rw [if_pos h2]
    rw [List.isEmpty_iff] at h2
    rw [h2]
    simp [List.dropWhile_cons, h]
  · rw [if_neg h2]
    simp

theorem trim_head_keep (c : Char) (p : List Char) (h : isWSb c = false) :
    trimList (c :: p) = c :: rtrim p := by
  unfold trimList ltrim
  rw [List.dropWhile_cons, if_neg (by simp [h])]
  exact rtrim_cons c p h

theorem ltrim_self_head (c : Char) (p : List Char) (h : ltrim (c :: p) = c :: p) :
    isWSb c = false := by
  by_contra hc
  rw [Bool.not_eq_false] at hc
  unfold ltrim at h
  rw [List.dropWhile_cons, if_pos hc] at h
  have h2 := (List.dropWhile_suffix (l := p) isWSb).length_le
  rw [h] at h2
  simp at h2

theorem rtrim_idem (l : List Char) : rtrim (rtrim l) = rtrim l := by
  unfold rtrim
  rw [List.reverse_reverse, dropWhile_idem]

theorem ltrim_rtrim_of_ltrim_self (w : List Char) (h : ltrim w = w) :
    ltrim (rtrim w) = rtrim w := by
  match w with
  | [] => rfl
  | c :: p =>
    have hws : isWSb c = false := ltrim_self_head c p h
    rw [rtrim_cons c p hws]
    unfold ltrim
    rw [List.dropWhile_cons, if_neg (by simp [hws])]

theorem trimList_idem (l : List Char) : trimList (trimList l) = trimList l := by
  have h1 : ltrim (ltrim l) = ltrim l := dropWhile_idem isWSb l
  have h2 : ltrim (rtrim (ltrim l)) = rtrim (ltrim l) :=
    ltrim_rtrim_of_ltrim_self (ltrim l) h1
  unfold trimList
  rw [h2, rtrim_idem]

theorem trimStr_idem (s : String) : trimStr (trimStr s) = trimStr s := by
  unfold trimStr
  rw [show (String.mk (trimList s.data)).data = trimList s.data from rfl, trimList_idem]

/-! ## Validation lemmas -/

theorem validate_dash (r : String) (h : startsDash (trimStr r) = true) :
    validate_ref_format r = Except.error (VcsError.InvalidRef (msgRefDash ++ r)) := by
  unfold validate_ref_format
  rw [if_pos h]

theorem validate_ok (r : String) (h : startsDash (trimStr r) = false) :
    validate_ref_format r = Except.ok () := by
  unfold validate_ref_format
  rw [if_neg (by simp [h])]

theorem validate_trimmed_dash (r : String) (h : startsDash (trimStr r) = true) :
    validate_ref_format (trimStr r) =
      Except.error (VcsError.InvalidRef (msgRefDash ++ trimStr r)) := by
  apply validate_dash
  rw [trimStr_idem]
  exact h

/-! ## Splitting a dash-initial reference keeps the dash on the first part -/

theorem splitOnAux_head_keep (s0 : Char) (sr : List Char) (fuel : Nat) (c : Char)
    (rest : List Char) (h : c ≠ s0) :
    ∃ p ps, splitOnAux s0 sr (fuel + 1) (c :: rest) = (c :: p) :: ps := by
  rw [splitOnAux]
  rw [if_neg (by
    intro hpre
    exact h ((List.cons_prefix_cons.mp hpre).1.symm))]
  cases hs : splitOnAux s0 sr fuel rest with
  | nil => exact ⟨[], [], rfl⟩
  | cons p ps => exact ⟨p, ps, rfl⟩

theorem startsDash_mk_cons (p : List Char) :
    startsDash (String.mk ('-' :: p)) = true := by
  unfold startsDash
  simp

theorem startsDash_trim_mk_cons (p : List Char) :
    startsDash (trimStr (String.mk ('-' :: p))) = true := by
  unfold trimStr
  rw [show (String.mk ('-' :: p)).data = '-' :: p from rfl]
  rw [trim_head_keep '-' p (by decide)]
  exact startsDash_mk_cons _

/-- When the trimmed reference starts with a dash, get_changed_files fails
with the invalid-reference kind whichever arm it takes. -/
theorem get_changed_files_dash (repo : Repo) (r : String)
    (h : startsDash (trimStr r) = true) :
    ∃ msg, get_changed_files repo r = Except.error (VcsError.InvalidRef msg) := by
  have hsingle : ∃ msg, get_changed_files_single repo (trimStr r) =
      Except.error (VcsError.InvalidRef msg) := by
    refine ⟨msgRefDash ++ trimStr r, ?_⟩
    unfold get_changed_files_single
    rw [validate_trimmed_dash r h]
  obtain ⟨dt, hdt⟩ : ∃ dt, (trimStr r).data = '-' :: dt := by
    unfold startsDash at h
    cases hd : (trimStr r).data with
    | nil => rw [hd] at h; simp at h
    | cons c cs =>
      rw [hd] at h
      simp at h
      exact ⟨cs, by rw [h]⟩
  unfold get_changed_files
  by_cases hc : containsSub (trimStr r) dotdot
  · rw [if_pos hc]
    have hsplit : ∀ sr : List Char, ∃ p ps,
        splitOnStr (trimStr r) '.' sr = String.mk ('-' :: p) :: ps := by
      intro sr
      unfold splitOnStr splitOnNE
      rw [hdt]
      rw [show ('-' :: dt).length = dt.length + 1 from rfl]
      obtain ⟨p, ps, hps⟩ := splitOnAux_head_keep '.' sr dt.length '-' dt (by decide)
      exact ⟨p, ps.map String.mk, by rw [hps]; rfl⟩
    by_cases h3 : containsSub (trimStr r) dotdotdot
    · rw [if_pos h3]
      obtain ⟨p, ps, hps⟩ := hsplit ['.', '.']
      rw [hps]
      cases ps with
      | nil => exact hsingle
      | cons q qs =>
        cases qs with
        | nil =>
          refine ⟨msgRefDash ++ String.mk ('-' :: p), ?_⟩
          dsimp only
          rw [validate_dash _ (startsDash_trim_mk_cons p)]
        | cons q2 qs2 => exact hsingle
    · rw [if_neg h3]
      obtain ⟨p, ps, hps⟩ := hsplit ['.']
      rw [hps]
      cases ps with
      | nil => exact hsingle
      | cons q qs =>
        cases qs with
        | nil =>
          refine ⟨msgRefDash ++ String.mk ('-' :: p), ?_⟩
          dsimp only
          rw [validate_dash _ (startsDash_trim_mk_cons p)]
        | cons q2 qs2 => exact hsingle
  · rw [if_neg hc]
    exact hsingle

/-- An operation result that failed with the invalid-reference kind. -/
def failsInvalidRef {α : Type} (x : Except VcsError α) : Prop :=
  ∃ msg, x = Except.error (VcsError.InvalidRef msg)

/-- C2: for every reference whose trimmed form begins with a hyphen, every
contract operation that accepts a reference fails with the InvalidRef
kind, never the Other catch-all, in whichever argument position the
reference appears; validation runs before any resolution is attempted. -/
theorem c2_dash_refs_fail_invalid_ref (repo : Repo) (r other path : String) (td : Bool)
    (h : startsDash (trimStr r) = true) :
    failsInvalidRef (get_commit repo r) ∧
    failsInvalidRef (get_range_diff repo r other td) ∧
    failsInvalidRef (get_range_diff repo other r td) ∧
    failsInvalidRef (get_changed_files repo r) ∧
    failsInvalidRef (get_file_content_at_ref repo r path) ∧
    failsInvalidRef (resolve_ref repo r) ∧
    failsInvalidRef (get_merge_base repo r other) ∧
    failsInvalidRef (get_merge_base repo other r) ∧
    failsInvalidRef (get_range_changed_files repo r other) ∧
    failsInvalidRef (get_range_changed_files repo other r) ∧
    failsInvalidRef (get_parent_ref_or_empty repo r) ∧
    failsInvalidRef (get_commits_in_range repo r other) ∧
    failsInvalidRef (get_commits_in_range repo other r) := by
  refine ⟨?_, ?_, ?_, ?_, ?_, ?_, ?_, ?_, ?_, ?_, ?_, ?_, ?_⟩
  · simp only [get_commit, validate_trimmed_dash r h]
    exact ⟨_, rfl⟩
  · simp only [get_range_diff, validate_dash r h]
    exact ⟨_, rfl⟩
  · by_cases ho : startsDash (trimStr other) = true
    · simp only [get_range_diff, validate_dash other ho]
      exact ⟨_, rfl⟩
    · simp only [get_range_diff, validate_ok other (Bool.eq_false_iff.mpr ho), validate_dash r h]
      exact ⟨_, rfl⟩
  · exact get_changed_files_dash repo r h
  · simp only [get_file_content_at_ref, validate_trimmed_dash r h]
    exact ⟨_, rfl⟩
  · simp only [resolve_ref, validate_trimmed_dash r h]
    exact ⟨_, rfl⟩
  · simp only [get_merge_base, validate_trimmed_dash r h]
    exact ⟨_, rfl⟩
  · by_cases ho : startsDash (trimStr other) = true
    · simp only [get_merge_base, validate_trimmed_dash other ho]
      exact ⟨_, rfl⟩
    · simp only [get_merge_base,
        validate_ok (trimStr other) (by rw [trimStr_idem]; exact Bool.eq_false_iff.mpr ho),
        validate_trimmed_dash r h]
      exact ⟨_, rfl⟩
  · simp only [get_range_changed_files, validate_trimmed_dash r h]
    exact ⟨_, rfl⟩
  · by_cases ho : startsDash (trimStr other) = true
    · simp only [get_range_changed_files, validate_trimmed_dash other ho]
      exact ⟨_, rfl⟩
    · simp only [get_range_changed_files,
        validate_ok (trimStr other) (by rw [trimStr_idem]; exact Bool.eq_false_iff.mpr ho),
        validate_trimmed_dash r h]
      exact ⟨_, rfl⟩
  · simp only [get_parent_ref_or_empty, validate_trimmed_dash r h]
    exact ⟨_, rfl⟩
  · simp only [get_commits_in_range, validate_trimmed_dash r h]
    exact ⟨_, rfl⟩
  · by_cases ho : startsDash (trimStr other) = true
    · simp only [get_commits_in_range, validate_trimmed_dash other ho]
      exact ⟨_, rfl⟩
    · simp only [get_commits_in_range,
        validate_ok (trimStr other) (by rw [trimStr_idem]; exact Bool.eq_false_iff.mpr ho),
        validate_trimmed_dash r h]
      exact ⟨_, rfl⟩

theorem c2_witness :
    startsDash (trimStr " -n") = true ∧
    failsInvalidRef (get_commit c1Repo " -n") ∧
    failsInvalidRef (resolve_ref c1Repo " -n") := by
  have hall := c2_dash_refs_fail_invalid_ref c1Repo " -n" "HEAD" "f.txt" false (by decide)
  exact ⟨by decide, hall.1, hall.2.2.2.2.2.1⟩

/-! ## Parent reference expressions -/

theorem ltrim_append_caret (u : List Char) (h : ltrim u = u) :
    ltrim (u ++ ['^']) = u ++ ['^'] := by
  match u with
  | [] =>
    unfold ltrim
    rw [List.nil_append, List.dropWhile_cons, if_neg (by decide)]
  | c :: p =>
    have hc : isWSb c = false := ltrim_self_head c p h
    unfold ltrim
    rw [List.cons_append, List.dropWhile_cons, if_neg (by simp [hc])]

theorem rtrim_append_caret (u : List Char) : rtrim (u ++ ['^']) = u ++ ['^'] := by
  unfold rtrim
  rw [List.reverse_append, show (['^'] : List Char).reverse = ['^'] from rfl,
    List.singleton_append, List.dropWhile_cons, if_neg (by decide)]
  simp

theorem trimStr_append_caret (s : String) :
    trimStr (trimStr s ++ "^") = trimStr s ++ "^" := by
  have hdata : (trimStr s ++ "^").data = trimList s.data ++ ['^'] := rfl
  have hl : ltrim (trimList s.data) = trimList s.data :=
    ltrim_rtrim_of_ltrim_self (ltrim s.data) (dropWhile_idem isWSb s.data)
  show String.mk (trimList (trimStr s ++ "^").data) = trimStr s ++ "^"
  rw [hdata]
  show String.mk (rtrim (ltrim (trimList s.data ++ ['\x5e']))) = trimStr s ++ "^"
  rw [ltrim_append_caret _ hl, rtrim_append_caret]
  rfl

theorem startsDash_append_caret (t : String) (h : startsDash t = false) :
    startsDash (t ++ "^") = false := by
  unfold startsDash at h ⊢
  rw [show (t ++ "^").data = t.data ++ ['^'] from rfl]
  cases hd : t.data with
  | nil => decide
  | cons c cs =>
    rw [hd] at h
    simpa using h

theorem revparse_caret (repo : Repo) (t : String) :
    revparse repo (t ++ "^") =
      match revparse repo t with
      | none => none
      | some cd =>
        match cd.parents.head? with
        | none => none
        | some pid => lookupCommit repo pid := by
  unfold revparse
  rw [show (t ++ "^").data = t.data ++ ['^'] from rfl, List.reverse_append,
    show (['^'] : List Char).reverse = ['^'] from rfl, List.singleton_append]
  rw [revparseRev]
  rw [if_pos rfl]

/-- C7: for a resolvable reference, get_parent_ref_or_empty returns the
well-known empty-tree id when the resolved commit is a root commit, and
otherwise returns the caret expression built from the trimmed input, which
resolve_ref resolves to the first parent commit id. -/
theorem c7_parent_ref_or_empty (repo : Repo) (r : String) (c : CommitData)
    (hval : startsDash (trimStr r) = false)
    (hres : revparse repo (trimStr r) = some c) :
    (c.parents = [] → get_parent_ref_or_empty repo r = Except.ok emptyTreeSha) ∧
    (∀ pid p, c.parents.head? = some pid → lookupCommit repo pid = some p →
      get_parent_ref_or_empty repo r = Except.ok (trimStr r ++ "^") ∧
      resolve_ref repo (trimStr r ++ "^") = Except.ok p.id) := by
  have hvr : validate_ref_format (trimStr r) = Except.ok () := by
    apply validate_ok
    rw [trimStr_idem]
    exact hval
  constructor
  · intro hroot
    simp only [get_parent_ref_or_empty, hvr, hres]
    rw [if_neg (by simp [hroot])]
  · intro pid p hpid hp
    have hpar : c.parents.length > 0 := by
      cases hc : c.parents with
      | nil => rw [hc] at hpid; simp at hpid
      | cons a l => simp [hc]
    constructor
    · simp only [get_parent_ref_or_empty, hvr, hres]
      rw [if_pos hpar]
    · have htrim : trimStr (trimStr r ++ "^") = trimStr r ++ "^" := trimStr_append_caret r
      have hdash2 : startsDash (trimStr (trimStr r ++ "^")) = false := by
        rw [htrim]
        exact startsDash_append_caret _ hval
      have hvr2 : validate_ref_format (trimStr r ++ "^") = Except.ok () :=
        validate_ok _ hdash2
      simp only [resolve_ref, htrim, hvr2, revparse_caret, hres, hpid, hp]

/-- A child commit of c1Commit. -/
def c7Child : CommitData :=
  { id := "bb22"
    parents := ["aa11"]
    message := "second"
    authorName := "T"
    authorEmail := "t@e"
    time := 10
    offset := 0
    tree := some [("f.txt", "B"), ("package-lock.json", "L")] }

/-- A two-commit linear repository. -/
def c7Repo : Repo :=
  { commits := [c7Child, c1Commit]
    refs := [("HEAD", "bb22")]
    index := []
    workdir := [] }

theorem c7_witness :
    get_parent_ref_or_empty c7Repo "bb22" = Except.ok (trimStr "bb22" ++ "^") ∧
    resolve_ref c7Repo (trimStr "bb22" ++ "^") = Except.ok "aa11" ∧
    get_parent_ref_or_empty c7Repo "aa11" = Except.ok emptyTreeSha := by
  have h1 := c7_parent_ref_or_empty c7Repo "bb22" c7Child (by decide) (by decide)
  have h2 := c7_parent_ref_or_empty c7Repo "aa11" c1Commit (by decide) (by decide)
  obtain ⟨ha, hb⟩ := h1.2 "aa11" c1Commit (by decide) (by decide)
  exact ⟨ha, hb, h2.1 (by decide)⟩

/-! ## Absolute time formatting -/

/-- The claim-side absolute formatter: civil date of floor(local/86400)
days after the epoch via the same era/year-of-era/day-of-year algorithm,
and H:M:S decomposition of the non-negative remainder local mod 86400. -/
def format_git_time_spec (secs : Int) (offset_mins : Int) : String :=
  let local_secs := secs + offset_mins * 60
  let days := Int.fdiv local_secs 86400
  let time_of_day := Int.emod local_secs 86400
  let hours := time_of_day / 3600
  let minutes := time_of_day % 3600 / 60
  let seconds := time_of_day % 60
  let ymd := days_to_ymd days
  String.mk (fmtI 4 ymd.1 ++ '-' :: zeroPadNat 2 ymd.2.1 ++ '-' :: zeroPadNat 2 ymd.2.2 ++
    ' ' :: fmtI 2 hours ++ ':' :: fmtI 2 minutes ++ ':' :: fmtI 2 seconds)

theorem neg_tmod_eq (a b : Int) : Int.tmod (-a) b = -(Int.tmod a b) := by
  rw [Int.tmod_def, Int.tmod_def, Int.neg_tdiv]
  ring

theorem tod_eq_emod (a : Int) :
    Int.tmod (Int.tmod a 86400 + 86400) 86400 = Int.emod a 86400 := by
  have hb : (0 : Int) < 86400 := by decide
  have hup : Int.tmod a 86400 < 86400 := Int.tmod_lt_of_pos a hb
  have hlow : -86400 < Int.tmod a 86400 := by
    rcases Int.le_or_lt 0 a with hp | hn
    · have := Int.tmod_nonneg (a := a) 86400 hp
      omega
    · have h1 : Int.tmod (-a) 86400 < 86400 := Int.tmod_lt_of_pos (-a) hb
      have h2 : Int.tmod (-a) 86400 = -(Int.tmod a 86400) := neg_tmod_eq a 86400
      omega
  have hnn : 0 ≤ Int.tmod a 86400 + 86400 := by omega
  rw [Int.tmod_eq_emod hnn (by decide)]
  have hdef : Int.tmod a 86400 = a - 86400 * Int.tdiv a 86400 := Int.tmod_def a 86400
  rw [hdef, show a - 86400 * Int.tdiv a 86400 + 86400 =
    a + 86400 * (1 - Int.tdiv a 86400) from by ring, Int.add_mul_emod_self_left]
  rfl

/-- C5 counterexample: one second before the epoch.  The code renders the
truncated day count (day 0, hence 1970-01-01) together with the floor-based
time of day (23:59:59), while the claim-side floor semantics renders
1969-12-31 23:59:59; the two disagree. -/
theorem c5_counterexample :
    format_git_time (-1) 0 = "1970-01-01 23:59:59" ∧
    format_git_time_spec (-1) 0 = "1969-12-31 23:59:59" ∧
    format_git_time (-1) 0 ≠ format_git_time_spec (-1) 0 :=
  ⟨by decide, by decide, by decide⟩

/-- C5 (amended): whenever the local time local_secs = seconds + 60*offset
is non-negative, the formatter renders exactly the claim-side semantics:
H:M:S from the non-negative remainder local_secs mod 86400 and the civil
date of floor(local_secs / 86400) days after 1970-01-01 computed by the
era/year-of-era/day-of-year algorithm.  (For negative local_secs the code
pairs the truncated day count with the floor remainder, see the
counterexample.) -/
theorem c5_format_git_time_amended (secs offset_mins : Int)
    (h : 0 ≤ secs + offset_mins * 60) :
    format_git_time secs offset_mins = format_git_time_spec secs offset_mins := by
  have e2 := tod_eq_emod (secs + offset_mins * 60)
  have hnn : 0 ≤ Int.emod (secs + offset_mins * 60) 86400 :=
    Int.emod_nonneg _ (by decide)
  have hnn2 : 0 ≤ Int.emod (secs + offset_mins * 60) 86400 % 3600 :=
    Int.emod_nonneg _ (by decide)
  have e1 : Int.tdiv (secs + offset_mins * 60) 86400 =
      Int.fdiv (secs + offset_mins * 60) 86400 := by
    rw [Int.tdiv_eq_ediv h (by decide), Int.fdiv_eq_ediv _ (by decide)]
  have e3 : Int.tdiv (Int.emod (secs + offset_mins * 60) 86400) 3600 =
      Int.emod (secs + offset_mins * 60) 86400 / 3600 :=
    Int.tdiv_eq_ediv hnn (by decide)
  have e4 : Int.tmod (Int.emod (secs + offset_mins * 60) 86400) 3600 =
      Int.emod (secs + offset_mins * 60) 86400 % 3600 :=
    Int.tmod_eq_emod hnn (by decide)
  have e5 : Int.tdiv (Int.emod (secs + offset_mins * 60) 86400 % 3600) 60 =
      Int.emod (secs + offset_mins * 60) 86400 % 3600 / 60 :=
    Int.tdiv_eq_ediv hnn2 (by decide)
  have e6 : Int.tmod (Int.emod (secs + offset_mins * 60) 86400) 60 =
      Int.emod (secs + offset_mins * 60) 86400 % 60 :=
    Int.tmod_eq_emod hnn (by decide)
  simp only [format_git_time, format_git_time_spec, e2, e1, e3, e4, e5, e6]

theorem c5_witness :
    (0 : Int) ≤ 1760227200 + 330 * 60 ∧
    format_git_time 1760227200 330 = format_git_time_spec 1760227200 330 :=
  ⟨by decide, c5_format_git_time_amended 1760227200 330 (by decide)⟩

/-! ## Fixed-shape output of the absolute formatter -/

theorem natDigitsAux_len_le :
    ∀ (fuel n k : Nat), n ≤ fuel → n < 10 ^ k → (natDigitsAux fuel n).length ≤ k := by
  intro fuel
  induction fuel with
  | zero =>
    intro n k h1 h2
    simp [natDigitsAux]
  | succ f ih =>
    intro n k h1 h2
    cases n with
    | zero => simp [natDigitsAux]
    | succ m =>
      show (natDigitsAux f ((m + 1) / 10) ++ [digitChar ((m + 1) % 10)]).length ≤ k
      rw [List.length_append]
      have hk : 1 ≤ k := by
        by_contra hk0
        push_neg at hk0
        have hk1 : k = 0 := by omega
        rw [hk1] at h2
        simp at h2
      have hpow : 10 ^ k = 10 * 10 ^ (k - 1) := by
        conv_lhs => rw [show k = (k - 1) + 1 from by omega]
        rw [pow_succ]
        ring
      have hd : (m + 1) / 10 < 10 ^ (k - 1) := by omega
      have hf : (m + 1) / 10 ≤ f := by omega
      have := ih ((m + 1) / 10) (k - 1) hf hd
      simp only [List.length_cons, List.length_nil]
      omega

theorem natDigits_len_le (n k : Nat) (hk : 1 ≤ k) (h : n < 10 ^ k) :
    (natDigits n).length ≤ k := by
  unfold natDigits
  by_cases h0 : n = 0
  · rw [if_pos h0]
    simpa using hk
  · rw [if_neg h0]
    exact natDigitsAux_len_le n n k le_rfl h

theorem zeroPadNat_len (w n : Nat) (h : (natDigits n).length ≤ w) :
    (zeroPadNat w n).length = w := by
  unfold zeroPadNat
  rw [List.length_append, List.length_replicate]
  omega

theorem fmtI_len (w : Nat) (n : Int) (hw : 1 ≤ w) (h0 : 0 ≤ n)
    (h1 : n.toNat < 10 ^ w) : (fmtI w n).length = w := by
  unfold fmtI
  rw [if_neg (by omega)]
  exact zeroPadNat_len w n.toNat (natDigits_len_le _ w hw h1)

theorem doe_bounds (z : Int) :
    0 ≤ z - (Int.tdiv (if 0 ≤ z then z else z - 146096) 146097) * 146097 ∧
    z - (Int.tdiv (if 0 ≤ z then z else z - 146096) 146097) * 146097 ≤ 146096 := by
  by_cases hz : 0 ≤ z
  · rw [if_pos hz, Int.tdiv_eq_ediv hz (by decide)]
    constructor <;> omega
  · rw [if_neg hz, show z - 146096 = -(146096 - z) from by ring, Int.neg_tdiv,
      Int.tdiv_eq_ediv (by omega) (by decide)]
    constructor <;> omega

theorem days_to_ymd_bounds (days : Int) :
    (days_to_ymd days).2.1 ≤ 99 ∧ (days_to_ymd days).2.2 ≤ 99 := by
  have hb := doe_bounds (days + 719468)
  simp only [days_to_ymd]
  generalize hx : (days + 719468 -
    Int.tdiv (if 0 ≤ days + 719468 then days + 719468 else days + 719468 - 146096) 146097 *
      146097).toNat = x
  have hx146 : x ≤ 146096 := by
    rw [← hx]
    omega
  constructor
  · show (if (5 * (x - (365 * ((x - x / 1460 + x / 36524 - x / 146096) / 365) +
      ((x - x / 1460 + x / 36524 - x / 146096) / 365) / 4 -
      ((x - x / 1460 + x / 36524 - x / 146096) / 365) / 100)) + 2) / 153 < 10 then
        (5 * (x - (365 * ((x - x / 1460 + x / 36524 - x / 146096) / 365) +
          ((x - x / 1460 + x / 36524 - x / 146096) / 365) / 4 -
          ((x - x / 1460 + x / 36524 - x / 146096) / 365) / 100)) + 2) / 153 + 3
      else
        (5 * (x - (365 * ((x - x / 1460 + x / 36524 - x / 146096) / 365) +
          ((x - x / 1460 + x / 36524 - x / 146096) / 365) / 4 -
          ((x - x / 1460 + x / 36524 - x / 146096) / 365) / 100)) + 2) / 153 - 9) ≤ 99
    split <;> omega
  · show x - (365 * ((x - x / 1460 + x / 36524 - x / 146096) / 365) +
      ((x - x / 1460 + x / 36524 - x / 146096) / 365) / 4 -
      ((x - x / 1460 + x / 36524 - x / 146096) / 365) / 100) -
      (153 * ((5 * (x - (365 * ((x - x / 1460 + x / 36524 - x / 146096) / 365) +
        ((x - x / 1460 + x / 36524 - x / 146096) / 365) / 4 -
        ((x - x / 1460 + x / 36524 - x / 146096) / 365) / 100)) + 2) / 153) + 2) / 5 + 1 ≤ 99
    omega

theorem list_len2 (l : List Char) (h : l.length = 2) : ∃ x y, l = [x, y] := by
  cases l with
  | nil => simp at h
  | cons x l1 =>
    cases l1 with
    | nil => simp at h
    | cons y l2 =>
      cases l2 with
      | nil => exact ⟨x, y, rfl⟩
      | cons z l3 => simp at h

theorem list_len4 (l : List Char) (h : l.length = 4) : ∃ w x y z, l = [w, x, y, z] := by
  cases l with
  | nil => simp at h
  | cons a l1 =>
    cases l1 with
    | nil => simp at h
    | cons b l2 =>
      cases l2 with
      | nil => simp at h
      | cons c l3 =>
        cases l3 with
        | nil => simp at h
        | cons d l4 =>
          cases l4 with
          | nil => exact ⟨a, b, c, d, rfl⟩
          | cons e l5 => simp at h

theorem assembled_shape (a b c d2 e f : List Char)
    (ha : a.length = 4) (hb : b.length = 2) (hc : c.length = 2)
    (hd : d2.length = 2) (he : e.length = 2) (hf : f.length = 2) :
    (a ++ '-' :: b ++ '-' :: c ++ ' ' :: d2 ++ ':' :: e ++ ':' :: f).length = 19 ∧
    (a ++ '-' :: b ++ '-' :: c ++ ' ' :: d2 ++ ':' :: e ++ ':' :: f)[4]? = some '-' ∧
    (a ++ '-' :: b ++ '-' :: c ++ ' ' :: d2 ++ ':' :: e ++ ':' :: f)[7]? = some '-' ∧
    (a ++ '-' :: b ++ '-' :: c ++ ' ' :: d2 ++ ':' :: e ++ ':' :: f)[10]? = some ' ' ∧
    (a ++ '-' :: b ++ '-' :: c ++ ' ' :: d2 ++ ':' :: e ++ ':' :: f)[13]? = some ':' ∧
    (a ++ '-' :: b ++ '-' :: c ++ ' ' :: d2 ++ ':' :: e ++ ':' :: f)[16]? = some ':' := by
  obtain ⟨a0, a1, a2, a3, rfl⟩ := list_len4 a ha
  obtain ⟨b0, b1, rfl⟩ := list_len2 b hb
  obtain ⟨c0, c1, rfl⟩ := list_len2 c hc
  obtain ⟨d0, d1, rfl⟩ := list_len2 d2 hd
  obtain ⟨e0, e1, rfl⟩ := list_len2 e he
  obtain ⟨f0, f1, rfl⟩ := list_len2 f hf
  exact ⟨rfl, rfl, rfl, rfl, rfl, rfl⟩

/-- C9 counterexample: at year 10000 the zero-padded year field takes five
characters and the output has length 20, not 19. -/
theorem c9_counterexample :
    (format_git_time 253402300800 0).length = 20 ∧
    (format_git_time 253402300800 0).length ≠ 19 :=
  ⟨by decide, by decide⟩

/-- C9 (amended): whenever the computed local calendar year lies in
0..9999, the absolute formatter output is exactly 19 characters in the
zero-padded form YYYY-MM-DD HH:MM:SS, with the separator characters at
positions 4, 7, 10, 13, 16; the formatter is a pure function, so the same
input always yields the same string.  (Years outside 0..9999 widen or sign
the year field, see the counterexample.) -/
theorem c9_format_length_amended (secs offset_mins : Int)
    (hy0 : 0 ≤ (days_to_ymd (Int.tdiv (secs + offset_mins * 60) 86400)).1)
    (hy1 : (days_to_ymd (Int.tdiv (secs + offset_mins * 60) 86400)).1 ≤ 9999) :
    (format_git_time secs offset_mins).length = 19 ∧
    (format_git_time secs offset_mins).data[4]? = some '-' ∧
    (format_git_time secs offset_mins).data[7]? = some '-' ∧
    (format_git_time secs offset_mins).data[10]? = some ' ' ∧
    (format_git_time secs offset_mins).data[13]? = some ':' ∧
    (format_git_time secs offset_mins).data[16]? = some ':' ∧
    format_git_time secs offset_mins = format_git_time secs offset_mins := by
  have hmd := days_to_ymd_bounds (Int.tdiv (secs + offset_mins * 60) 86400)
  have htod := tod_eq_emod (secs + offset_mins * 60)
  have htnn : 0 ≤ Int.emod (secs + offset_mins * 60) 86400 :=
    Int.emod_nonneg _ (by decide)
  have htlt : Int.emod (secs + offset_mins * 60) 86400 < 86400 :=
    Int.emod_lt_of_pos _ (by decide)
  have ha : (fmtI 4 (days_to_ymd (Int.tdiv (secs + offset_mins * 60) 86400)).1).length = 4 :=
    fmtI_len 4 _ (by omega) hy0
      (by rw [show (10 : Nat) ^ 4 = 10000 from by norm_num]; omega)
  have hbl : (zeroPadNat 2
      (days_to_ymd (Int.tdiv (secs + offset_mins * 60) 86400)).2.1).length = 2 :=
    zeroPadNat_len 2 _ (natDigits_len_le _ 2 (by omega)
      (by rw [show (10 : Nat) ^ 2 = 100 from by norm_num]; omega))
  have hcl : (zeroPadNat 2
      (days_to_ymd (Int.tdiv (secs + offset_mins * 60) 86400)).2.2).length = 2 :=
    zeroPadNat_len 2 _ (natDigits_len_le _ 2 (by omega)
      (by rw [show (10 : Nat) ^ 2 = 100 from by norm_num]; omega))
  have hhour : (fmtI 2 (Int.tdiv
      (Int.tmod (Int.tmod (secs + offset_mins * 60) 86400 + 86400) 86400) 3600)).length = 2 := by
    rw [htod, Int.tdiv_eq_ediv htnn (by decide)]
    exact fmtI_len 2 _ (by omega) (by omega)
      (by rw [show (10 : Nat) ^ 2 = 100 from by norm_num]; omega)
  have hmin : (fmtI 2 (Int.tdiv (Int.tmod
      (Int.tmod (Int.tmod (secs + offset_mins * 60) 86400 + 86400) 86400) 3600) 60)).length = 2 := by
    rw [htod, Int.tmod_eq_emod htnn (by decide)]
    have hnn2 : 0 ≤ Int.emod (secs + offset_mins * 60) 86400 % 3600 :=
      Int.emod_nonneg _ (by decide)
    have hlt2 : Int.emod (secs + offset_mins * 60) 86400 % 3600 < 3600 :=
      Int.emod_lt_of_pos _ (by decide)
    rw [Int.tdiv_eq_ediv hnn2 (by decide)]
    exact fmtI_len 2 _ (by omega) (by omega)
      (by rw [show (10 : Nat) ^ 2 = 100 from by norm_num]; omega)
  have hsec : (fmtI 2 (Int.tmod
      (Int.tmod (Int.tmod (secs + offset_mins * 60) 86400 + 86400) 86400) 60)).length = 2 := by
    rw [htod, Int.tmod_eq_emod htnn (by decide)]
    have hnn2 : 0 ≤ Int.emod (secs + offset_mins * 60) 86400 % 60 :=
      Int.emod_nonneg _ (by decide)
    have hlt2 : Int.emod (secs + offset_mins * 60) 86400 % 60 < 60 :=
      Int.emod_lt_of_pos _ (by decide)
    exact fmtI_len 2 _ (by omega) (by omega)
      (by rw [show (10 : Nat) ^ 2 = 100 from by norm_num]; omega)
  obtain ⟨l1, l2, l3, l4, l5, l6⟩ :=
    assembled_shape _ _ _ _ _ _ ha hbl hcl hhour hmin hsec
  simp only [format_git_time]
  exact ⟨l1, l2, l3, l4, l5, l6, trivial⟩

theorem c9_witness :
    (0 : Int) ≤ (days_to_ymd (Int.tdiv (0 + 0 * 60) 86400)).1 ∧
    (days_to_ymd (Int.tdiv (0 + 0 * 60) 86400)).1 ≤ 9999 ∧
    (format_git_time 0 0).length = 19 :=
  ⟨by decide, by decide, (c9_format_length_amended 0 0 (by decide) (by decide)).1⟩

/-! ## Linear-history reasoning for commit-range enumeration -/

/-- A descending (newest-first) linear chain of commits: each commit has
exactly the next one as its only parent, and the last one is a root. -/
def isDescChain : List CommitData → Bool
  | [] => true
  | [c] => c.parents == []
  | c :: d :: rest => (c.parents == [d.id]) && isDescChain (d :: rest)

/-- A commit id in the plain form actual hex object ids take: already
trimmed, not dash-initial, and not ending in a caret. -/
def plainId (s : String) : Bool :=
  (trimStr s == s) && (!(startsDash s)) && (!(s.data.getLast? == some '\x5e'))

theorem ancestorsAux_nil_stack (repo : Repo) (fuel : Nat) (visited : List String) :
    ancestorsAux repo fuel [] visited = visited.reverse := by
  cases fuel <;> rfl

theorem ancestorsAux_chain (repo : Repo) :
    ∀ (desc : List CommitData) (c : CommitData) (visited : List String) (fuel : Nat),
      isDescChain (c :: desc) = true →
      (∀ x ∈ c :: desc, lookupCommit repo x.id = some x) →
      (∀ x ∈ c :: desc, visited.contains x.id = false) →
      ((c :: desc).map (fun y => y.id)).Nodup →
      desc.length + 1 ≤ fuel →
      ancestorsAux repo fuel [c.id] visited =
        visited.reverse ++ (c :: desc).map (fun y => y.id) := by
  intro desc
  induction desc with
  | nil =>
    intro c visited fuel hchain hlook hvis hnodup hfuel
    have hroot : c.parents = [] := by
      have := hchain
      unfold isDescChain at this
      simpa using this
    obtain ⟨f, rfl⟩ : ∃ f, fuel = f + 1 := ⟨fuel - 1, by omega⟩
    rw [ancestorsAux, if_neg (by rw [hvis c (by simp)]; decide),
      hlook c (by simp)]
    dsimp only
    rw [hroot]
    rw [show ([] : List String) ++ [] = [] from rfl, ancestorsAux_nil_stack]
    simp
  | cons d rest ih =>
    intro c visited fuel hchain hlook hvis hnodup hfuel
    have hpar : c.parents = [d.id] ∧ isDescChain (d :: rest) = true := by
      have := hchain
      unfold isDescChain at this
      simpa using this
    obtain ⟨f, rfl⟩ : ∃ f, fuel = f + 1 := ⟨fuel - 1, by omega⟩
    rw [ancestorsAux, if_neg (by rw [hvis c (by simp)]; decide),
      hlook c (by simp)]
    dsimp only
    rw [hpar.1]
    have hvis2 : ∀ x ∈ d :: rest, (c.id :: visited).contains x.id = false := by
      intro x hx
      rw [List.contains_cons]
      have hne : (x.id == c.id) = false := by
        have hcnot : c.id ∉ (d :: rest).map (fun y => y.id) := by
          have := hnodup
          rw [List.map_cons, List.nodup_cons] at this
          exact this.1
        have : x.id ≠ c.id := by
          intro he
          exact hcnot (he ▸ List.mem_map_of_mem _ hx)
        simpa using this
      rw [hne, hvis x (by simp [hx])]
      rfl
    have := ih d (c.id :: visited) f hpar.2
      (fun x hx => hlook x (List.mem_cons_of_mem c hx)) hvis2
      (by
        have := hnodup
        rw [List.map_cons, List.nodup_cons] at this
        exact this.2)
      (by simpa using hfuel)
    rw [show ([d.id] : List String) ++ [] = [d.id] from rfl, this]
    simp

theorem ancestors_chain (repo : Repo) (desc : List CommitData) (c : CommitData)
    (hchain : isDescChain (c :: desc) = true)
    (hlook : ∀ x ∈ c :: desc, lookupCommit repo x.id = some x)
    (hnodup : ((c :: desc).map (fun y => y.id)).Nodup)
    (hfuel : desc.length + 1 ≤ repo.commits.length + 1) :
    ancestors repo c.id = (c :: desc).map (fun y => y.id) := by
  unfold ancestors
  rw [ancestorsAux_chain repo desc c [] (repo.commits.length + 1) hchain hlook
    (by intro x _; rfl) hnodup hfuel]
  rfl

theorem isDescChain_suffix : ∀ (xs ys : List CommitData),
    isDescChain (xs ++ ys) = true → isDescChain ys = true := by
  intro xs
  induction xs with
  | nil => intro ys h; exact h
  | cons a xs ih =>
    intro ys h
    apply ih
    cases hx : xs ++ ys with
    | nil => rfl
    | cons b l =>
      rw [List.cons_append, hx] at h
      unfold isDescChain at h
      simp only [Bool.and_eq_true] at h
      exact h.2

theorem revparse_plain (repo : Repo) (s : String)
    (hcaret : s.data.getLast? ≠ some '\x5e')
    (href : repo.refs.lookup s = none) :
    revparse repo s = lookupCommit repo s := by
  unfold revparse
  cases hd : s.data.reverse with
  | nil =>
    have hsd : s.data = [] := by simpa using congrArg List.reverse hd
    have hs : s = String.mk [] := by
      apply String.ext
      exact hsd
    rw [revparseRev]
    unfold revparseBase
    rw [← hs, href]
  | cons c rest =>
    have hcne : ¬(c = '\x5e') := by
      intro he
      apply hcaret
      rw [← List.head?_reverse, hd, he]
      rfl
    rw [revparseRev, if_neg hcne]
    have hback : (c :: rest).reverse = s.data := by
      rw [← hd]
      simp
    rw [hback]
    have hs : String.mk s.data = s := rfl
    rw [hs]
    unfold revparseBase
    rw [href]

theorem revwalk_chain (repo : Repo) (upper lower : List CommitData)
    (tc fc : CommitData) (up' low' : List CommitData)
    (hupper : upper = tc :: up') (hlower : lower = fc :: low')
    (hchain : isDescChain (upper ++ lower) = true)
    (hlook : ∀ x ∈ upper ++ lower, lookupCommit repo x.id = some x)
    (hnodup : ((upper ++ lower).map (fun y => y.id)).Nodup)
    (hfuel : (upper ++ lower).length ≤ repo.commits.length + 1) :
    revwalkList repo tc.id fc.id = upper.map (fun y => y.id) := by
  have hassoc : upper ++ lower = tc :: (up' ++ lower) := by
    rw [hupper]
    rfl
  have hanc_to : ancestors repo tc.id = (upper ++ lower).map (fun y => y.id) := by
    rw [hassoc] at hchain hlook hnodup hfuel
    rw [hassoc]
    exact ancestors_chain repo (up' ++ lower) tc hchain hlook hnodup (by
      simp only [List.length_cons] at hfuel
      omega)
  have hchain2 : isDescChain lower = true := isDescChain_suffix upper lower hchain
  have hanc_from : ancestors repo fc.id = lower.map (fun y => y.id) := by
    rw [hlower] at hchain2 ⊢
    exact ancestors_chain repo low' fc hchain2
      (fun x hx => hlook x (List.mem_append_right upper (by rw [hlower]; exact hx)))
      (by
        rw [List.map_append] at hnodup
        have h2 := hnodup.of_append_right
        rw [hlower] at h2
        exact h2)
      (by
        rw [List.length_append, hlower] at hfuel
        simp only [List.length_cons] at hfuel
        omega)
  have hdisj : List.Disjoint (upper.map (fun y => y.id)) (lower.map (fun y => y.id)) := by
    rw [List.map_append] at hnodup
    exact List.disjoint_of_nodup_append hnodup
  unfold revwalkList
  rw [hanc_to, hanc_from, List.map_append, List.filter_append]
  have h1 : (upper.map (fun y => y.id)).filter
      (fun i => !((lower.map (fun y => y.id)).contains i)) = upper.map (fun y => y.id) := by
    apply List.filter_eq_self.mpr
    intro x hx
    have hx2 : x ∉ lower.map (fun y => y.id) := hdisj hx
    simp [hx2]
  have h2 : (lower.map (fun y => y.id)).filter
      (fun i => !((lower.map (fun y => y.id)).contains i)) = [] := by
    apply List.filter_eq_nil_iff.mpr
    intro x hx
    simp [hx]
  rw [h1, h2, List.append_nil]

theorem collectStacked_chain (repo : Repo) :
    ∀ (cs : List CommitData), (∀ c ∈ cs, lookupCommit repo c.id = some c) →
      collectStacked repo (cs.map (fun c => c.id)) =
        Except.ok ((cs.filter (fun c => keepInRange repo c)).map stackedOf) := by
  intro cs
  induction cs with
  | nil => intro _; rfl
  | cons c rest ih =>
    intro hlook
    rw [List.map_cons, collectStacked, hlook c (by simp),
      ih (fun x hx => hlook x (List.mem_cons_of_mem c hx))]
    dsimp only
    by_cases hk : keepInRange repo c
    · rw [if_pos hk, List.filter_cons_of_pos (by simpa using hk), List.map_cons]
    · rw [if_neg hk, List.filter_cons_of_neg (by simpa using hk)]

/-- Evaluation of get_commits_in_range on a linear repository: the walk
visits the commits strictly above from (newest first), keeps those whose
changed-file computation succeeds with a non-empty list, and returns them
oldest first. -/
theorem get_commits_in_range_chain (repo : Repo) (upper lower : List CommitData)
    (tc fc : CommitData) (up' low' : List CommitData)
    (hupper : upper = tc :: up') (hlower : lower = fc :: low')
    (hchain : isDescChain (upper ++ lower) = true)
    (hlook : ∀ x ∈ upper ++ lower, lookupCommit repo x.id = some x)
    (hnodup : ((upper ++ lower).map (fun y => y.id)).Nodup)
    (hfuel : (upper ++ lower).length ≤ repo.commits.length + 1)
    (hplainf : plainId fc.id = true) (hplaint : plainId tc.id = true)
    (hreff : repo.refs.lookup fc.id = none) (hreft : repo.refs.lookup tc.id = none) :
    get_commits_in_range repo fc.id tc.id =
      Except.ok (((upper.filter (fun c => keepInRange repo c)).map stackedOf).reverse) := by
  have hpf := hplainf
  unfold plainId at hpf
  simp only [Bool.and_eq_true, beq_iff_eq] at hpf
  have htf : trimStr fc.id = fc.id := hpf.1.1
  have hdf : startsDash fc.id = false := by simpa using hpf.1.2
  have hcf : fc.id.data.getLast? ≠ some '\x5e' := by
    intro hEq
    have h3 := hpf.2
    rw [hEq] at h3
    simp at h3
  have hpt := hplaint
  unfold plainId at hpt
  simp only [Bool.and_eq_true, beq_iff_eq] at hpt
  have htt : trimStr tc.id = tc.id := hpt.1.1
  have hdt : startsDash tc.id = false := by simpa using hpt.1.2
  have hct : tc.id.data.getLast? ≠ some '\x5e' := by
    intro hEq
    have h3 := hpt.2
    rw [hEq] at h3
    simp at h3
  have hmemf : fc ∈ upper ++ lower :=
    List.mem_append_right upper (by rw [hlower]; exact List.mem_cons_self fc low')
  have hmemt : tc ∈ upper ++ lower :=
    List.mem_append_left lower (by rw [hupper]; exact List.mem_cons_self tc up')
  have hresf : revparse repo fc.id = some fc := by
    rw [revparse_plain repo fc.id hcf hreff]
    exact hlook fc hmemf
  have hrest : revparse repo tc.id = some tc := by
    rw [revparse_plain repo tc.id hct hreft]
    exact hlook tc hmemt
  have hvf : validate_ref_format fc.id = Except.ok () := by
    apply validate_ok
    rw [htf]
    exact hdf
  have hvt : validate_ref_format tc.id = Except.ok () := by
    apply validate_ok
    rw [htt]
    exact hdt
  simp only [get_commits_in_range, htf, htt, hvf, hvt, hresf, hrest]
  rw [revwalk_chain repo upper lower tc fc up' low' hupper hlower hchain hlook hnodup hfuel,
    collectStacked_chain repo upper (fun x hx => hlook x (List.mem_append_left lower hx))]

/-- C3: (a) get_commits_in_range(A, A) is empty for every resolvable A;
(b) on a linear repository where every commit strictly above from
(exclusive) up to to (inclusive) has a non-empty changed-file set, the
result lists exactly those commits, oldest first, each entry's summary
being the first line of the commit message; (c) a commit with an empty
changed-file set strictly inside the range is omitted while the
surrounding commits keep their relative order.  Chains are written newest
first (upper = to .. just-above-from, lower = from .. root). -/
theorem c3_commits_in_range_linear :
    (∀ (repo : Repo) (A : String) (c : CommitData),
      startsDash (trimStr A) = false → revparse repo (trimStr A) = some c →
      get_commits_in_range repo A A = Except.ok []) ∧
    (∀ (repo : Repo) (upper lower : List CommitData) (tc fc : CommitData)
      (up' low' : List CommitData),
      upper = tc :: up' → lower = fc :: low' →
      isDescChain (upper ++ lower) = true →
      (∀ x ∈ upper ++ lower, lookupCommit repo x.id = some x) →
      ((upper ++ lower).map (fun y => y.id)).Nodup →
      (upper ++ lower).length ≤ repo.commits.length + 1 →
      plainId fc.id = true → plainId tc.id = true →
      repo.refs.lookup fc.id = none → repo.refs.lookup tc.id = none →
      (∀ c ∈ upper, ∃ fs, get_changed_files repo c.id = Except.ok fs ∧ fs ≠ []) →
      get_commits_in_range repo fc.id tc.id =
        Except.ok ((upper.map stackedOf).reverse) ∧
      ((upper.map stackedOf).reverse).length = upper.length ∧
      (∀ c ∈ upper, (stackedOf c).summary = summaryOf c.message)) ∧
    (∀ (repo : Repo) (u2 u1 lower : List CommitData) (e tc fc : CommitData)
      (up' low' : List CommitData),
      u2 ++ e :: u1 = tc :: up' → lower = fc :: low' →
      isDescChain ((u2 ++ e :: u1) ++ lower) = true →
      (∀ x ∈ (u2 ++ e :: u1) ++ lower, lookupCommit repo x.id = some x) →
      (((u2 ++ e :: u1) ++ lower).map (fun y => y.id)).Nodup →
      ((u2 ++ e :: u1) ++ lower).length ≤ repo.commits.length + 1 →
      plainId fc.id = true → plainId tc.id = true →
      repo.refs.lookup fc.id = none → repo.refs.lookup tc.id = none →
      get_changed_files repo e.id = Except.ok [] →
      (∀ c ∈ u2 ++ u1, ∃ fs, get_changed_files repo c.id = Except.ok fs ∧ fs ≠ []) →
      get_commits_in_range repo fc.id tc.id =
        Except.ok (((u2 ++ u1).map stackedOf).reverse)) := by
  have hkeep_of_ne : ∀ (repo : Repo) (c : CommitData),
      (∃ fs, get_changed_files repo c.id = Except.ok fs ∧ fs ≠ []) →
      keepInRange repo c = true := by
    intro repo c ⟨fs, hfs, hne⟩
    unfold keepInRange
    rw [hfs]
    simpa using hne
  refine ⟨?_, ?_, ?_⟩
  · intro repo A c hval hres
    have hv : validate_ref_format (trimStr A) = Except.ok () := by
      apply validate_ok
      rw [trimStr_idem]
      exact hval
    simp only [get_commits_in_range, hv, hres]
    have hw : revwalkList repo c.id c.id = [] := by
      unfold revwalkList
      apply List.filter_eq_nil_iff.mpr
      intro x hx
      simp [hx]
    rw [hw]
    rfl
  · intro repo upper lower tc fc up' low' hupper hlower hchain hlook hnodup hfuel
      hplainf hplaint hreff hreft hne
    have hfilter : upper.filter (fun c => keepInRange repo c) = upper :=
      List.filter_eq_self.mpr (fun c hc => hkeep_of_ne repo c (hne c hc))
    refine ⟨?_, by simp, fun c _ => rfl⟩
    rw [get_commits_in_range_chain repo upper lower tc fc up' low' hupper hlower hchain
      hlook hnodup hfuel hplainf hplaint hreff hreft, hfilter]
  · intro repo u2 u1 lower e tc fc up' low' hupper hlower hchain hlook hnodup hfuel
      hplainf hplaint hreff hreft hempty hne
    have hkeepe : keepInRange repo e = false := by
      unfold keepInRange
      rw [hempty]
      rfl
    have hfilter : (u2 ++ e :: u1).filter (fun c => keepInRange repo c) = u2 ++ u1 := by
      rw [List.filter_append, List.filter_cons_of_neg (by simp [hkeepe])]
      rw [List.filter_eq_self.mpr (fun c hc =>
          hkeep_of_ne repo c (hne c (List.mem_append_left u1 hc))),
        List.filter_eq_self.mpr (fun c hc =>
          hkeep_of_ne repo c (hne c (List.mem_append_right u2 hc)))]
    rw [get_commits_in_range_chain repo (u2 ++ e :: u1) lower tc fc up' low' hupper hlower
      hchain hlook hnodup hfuel hplainf hplaint hreff hreft, hfilter]

/-- Root commit of the three-commit linear repository. -/
def c3A : CommitData :=
  { id := "aaaa111"
    parents := []
    message := "commit A"
    authorName := "T"
    authorEmail := "t@e"
    time := 100
    offset := 0
    tree := some [("f.txt", "A")] }

/-- Middle commit of the three-commit linear repository. -/
def c3B : CommitData :=
  { id := "bbbb222"
    parents := ["aaaa111"]
    message := "commit B"
    authorName := "T"
    authorEmail := "t@e"
    time := 200
    offset := 0
    tree := some [("f.txt", "B")] }

/-- Tip commit of the three-commit linear repository. -/
def c3C : CommitData :=
  { id := "cccc333"
    parents := ["bbbb222"]
    message := "commit C"
    authorName := "T"
    authorEmail := "t@e"
    time := 300
    offset := 0
    tree := some [("f.txt", "C")] }

/-- A three-commit linear repository. -/
def c3Repo : Repo :=
  { commits := [c3C, c3B, c3A]
    refs := []
    index := []
    workdir := [] }

theorem c3_witness :
    get_commits_in_range c3Repo "aaaa111" "aaaa111" = Except.ok [] ∧
    get_commits_in_range c3Repo "aaaa111" "cccc333" =
      Except.ok (([c3C, c3B].map stackedOf).reverse) := by
  constructor
  · exact c3_commits_in_range_linear.1 c3Repo "aaaa111" c3A (by decide) (by decide)
  · exact (c3_commits_in_range_linear.2.1 c3Repo [c3C, c3B] [c3A] c3C c3A [c3B] []
      rfl rfl (by decide) (by decide) (by decide) (by decide) (by decide) (by decide)
      (by decide) (by decide)
      (by
        intro c hc
        simp only [List.mem_cons, List.not_mem_nil, or_false] at hc
        rcases hc with h | h
        · exact ⟨["f.txt"], by rw [h]; decide, by decide⟩
        · exact ⟨["f.txt"], by rw [h]; decide, by decide⟩)).1

/-- Root commit of the broken-tree repository. -/
def c6A : CommitData :=
  { id := "r0aa"
    parents := []
    message := "root"
    authorName := "T"
    authorEmail := "t@e"
    time := 1
    offset := 0
    tree := some [("a.txt", "x")] }

/-- Middle commit whose tree object is unreadable. -/
def c6B : CommitData :=
  { id := "r1bb"
    parents := ["r0aa"]
    message := "broken"
    authorName := "T"
    authorEmail := "t@e"
    time := 2
    offset := 0
    tree := none }

/-- Tip commit of the broken-tree repository. -/
def c6C : CommitData :=
  { id := "r2cc"
    parents := ["r1bb"]
    message := "tip"
    authorName := "T"
    authorEmail := "t@e"
    time := 3
    offset := 0
    tree := some [("a.txt", "y")] }

/-- A linear repository whose middle commit has an unreadable tree. -/
def c6Repo : Repo :=
  { commits := [c6C, c6B, c6A]
    refs := []
    index := []
    workdir := [] }

/-- C6 counterexample: the per-commit changed-file computation fails for
the middle commit of the range (its tree is unreadable), yet
get_commits_in_range succeeds, silently omitting that commit instead of
returning the failure. -/
theorem c6_counterexample :
    get_changed_files c6Repo "r1bb" = Except.error (VcsError.Other msgCommitTree) ∧
    get_commits_in_range c6Repo "r0aa" "r2cc" = Except.ok [stackedOf c6C] :=
  ⟨by decide, by decide⟩

/-- C6 (amended): on a linear repository, when the per-visited-commit
changed-file computation fails for a commit strictly inside the range,
get_commits_in_range does not propagate that failure: it succeeds, and the
failing commit is treated as empty and omitted from the output.  (Failures
of the walk itself, of reference validation and of resolution are still
propagated, as the error arms of the operation show.) -/
theorem c6_changed_file_failure_swallowed (repo : Repo) (upper lower : List CommitData)
    (tc fc : CommitData) (up' low' : List CommitData)
    (hupper : upper = tc :: up') (hlower : lower = fc :: low')
    (hchain : isDescChain (upper ++ lower) = true)
    (hlook : ∀ x ∈ upper ++ lower, lookupCommit repo x.id = some x)
    (hnodup : ((upper ++ lower).map (fun y => y.id)).Nodup)
    (hfuel : (upper ++ lower).length ≤ repo.commits.length + 1)
    (hplainf : plainId fc.id = true) (hplaint : plainId tc.id = true)
    (hreff : repo.refs.lookup fc.id = none) (hreft : repo.refs.lookup tc.id = none)
    (c : CommitData) (hc : c ∈ upper) (err : VcsError)
    (herr : get_changed_files repo c.id = Except.error err) :
    get_commits_in_range repo fc.id tc.id =
      Except.ok (((upper.filter (fun x => keepInRange repo x)).map stackedOf).reverse) ∧
    ∀ s ∈ ((upper.filter (fun x => keepInRange repo x)).map stackedOf).reverse,
      s.commit_id ≠ c.id := by
  have hkeepc : keepInRange repo c = false := by
    unfold keepInRange
    rw [herr]
  refine ⟨get_commits_in_range_chain repo upper lower tc fc up' low' hupper hlower hchain
    hlook hnodup hfuel hplainf hplaint hreff hreft, ?_⟩
  intro s hs
  rw [List.mem_reverse] at hs
  obtain ⟨c2, hc2, rfl⟩ := List.mem_map.mp hs
  have hc2u : c2 ∈ upper := List.mem_of_mem_filter hc2
  have hkeep2 : keepInRange repo c2 = true := by
    have h2 := List.of_mem_filter hc2
    simpa using h2
  intro hEq
  have hinj := List.inj_on_of_nodup_map
    (by
      rw [List.map_append] at hnodup
      exact hnodup.of_append_left)
  have hceq : c2 = c := hinj hc2u hc hEq
  rw [hceq] at hkeep2
  rw [hkeepc] at hkeep2
  exact Bool.false_ne_true hkeep2

theorem c6_witness :
    get_commits_in_range c6Repo "r0aa" "r2cc" =
      Except.ok ((([c6C, c6B].filter (fun x => keepInRange c6Repo x)).map stackedOf).reverse) ∧
    ∀ s ∈ (([c6C, c6B].filter (fun x => keepInRange c6Repo x)).map stackedOf).reverse,
      s.commit_id ≠ c6B.id :=
  c6_changed_file_failure_swallowed c6Repo [c6C, c6B] [c6A] c6C c6A [c6B] []
    rfl rfl (by decide) (by decide) (by decide) (by decide) (by decide) (by decide)
    (by decide) (by decide) c6B (by decide) (VcsError.Other msgCommitTree) (by decide)
